import Mathlib

/-!
# Solafon MCP server — verification of the adapter layer

A shallow embedding of `src/index.ts` of the `solafon-mcp` server: the HTTP
gateway (`apiCall`), the result-envelope builder (`ok`), and each tool
handler's request construction, together with a model of JavaScript's
`JSON.stringify`/`JSON.parse` pair (pretty-printing with 2-space indent, as in
`JSON.stringify(data, null, 2)`), JS truthiness, and the property-dropping
behaviour of `JSON.stringify` on `undefined`-valued fields.

JSON numbers are modelled as integers.
-/

namespace Solafon

/-- JSON values as produced by `JSON.parse` / consumed by `JSON.stringify`.
Numbers are modelled as integers. -/
inductive Json where
  | null : Json
  | bool (b : Bool) : Json
  | num (n : Int) : Json
  | str (s : String) : Json
  | arr (xs : List Json) : Json
  | obj (kvs : List (String × Json)) : Json

/-- JavaScript truthiness of a JSON value: `null`, `false`, `0` and `""` are
falsy; every array and object (even empty) is truthy. -/
def Json.truthy : Json → Bool
  | .null => false
  | .bool b => b
  | .num n => n != 0
  | .str s => s != ""
  | .arr _ => true
  | .obj _ => true

/-- JavaScript truthiness of an optional string (`string | undefined`):
truthy exactly when present and non-empty. -/
def strTruthy : Option String → Bool
  | none => false
  | some s => s != ""

/-- First binding of a key in an object's property list (JS objects have
unique keys, so first = only). -/
def getField (kvs : List (String × Json)) (k : String) : Option Json :=
  match kvs with
  | [] => none
  | (k', v) :: rest => if k' = k then some v else getField rest k

/-- The keys of a property list, in order. -/
def keysOf (kvs : List (String × Json)) : List String :=
  kvs.map Prod.fst

/-- The decimal digit or lowercase hex digit for `n < 16`. -/
def digitChar (n : Nat) : Char :=
  if n < 10 then Char.ofNat (48 + n) else Char.ofNat (87 + n)

/-- Decimal digits of a natural number, via a structural fuel argument
(`natCharsAux (n+1) n` always has enough fuel). -/
def natCharsAux : Nat → Nat → List Char
  | 0, _ => []
  | fuel + 1, n =>
      if n < 10 then [digitChar n]
      else natCharsAux fuel (n / 10) ++ [digitChar (n % 10)]

/-- Decimal digits of a natural number, most significant first. -/
def natChars (n : Nat) : List Char := natCharsAux (n + 1) n

/-- Decimal representation of an integer, as JavaScript's `toString` /
`JSON.stringify` renders integral numbers. -/
def intChars : Int → List Char
  | .ofNat n => natChars n
  | .negSucc m => '-' :: natChars (m + 1)

mutual
/-- JavaScript string interpolation of a value inside a template literal
(`` `${v}` ``): strings verbatim, numbers/booleans/null via `toString`,
arrays joined by commas (recursively), plain objects as `[object Object]`. -/
def Json.display : Json → String
  | .null => "null"
  | .bool b => cond b "true" "false"
  | .num n => String.mk (intChars n)
  | .str s => s
  | .arr xs => String.intercalate "," (displayList xs)
  | .obj _ => "[object Object]"

/-- Displays of the elements of an array, in order. -/
def displayList : List Json → List String
  | [] => []
  | x :: xs => x.display :: displayList xs
end

/-! ## HTTP gateway (`apiCall`, src/index.ts lines 27–59) -/

/-- An outbound HTTP request as assembled by `apiCall`: method, path
relative to the base URL, the query record passed in by the handler
(before empty values are dropped), and the optional JSON body. -/
structure Request where
  method : String
  path : String
  query : List (String × String)
  body : Option Json

/-- The query parameters actually placed on the outbound URL: `apiCall`
iterates the query record and sets a parameter only when its value is truthy,
which for strings means non-empty (src/index.ts lines 34–38). -/
def sentParams (query : List (String × String)) : List (String × String) :=
  query.filter fun kv => kv.2 ≠ ""

/-- The header set attached by `apiCall`: `Content-Type` always, and
`X-Bot-Token` only when a non-empty token was configured at process start
(src/index.ts lines 40–45, `if (BOT_TOKEN)`). -/
def headersFor (botToken : String) : List (String × String) :=
  [("Content-Type", "application/json")] ++
    (if botToken ≠ "" then [("X-Bot-Token", botToken)] else [])

/-! ## `JSON.stringify(data, null, 2)` — the serializer used by `ok` -/

/-- Opening brace character (written via its code point). -/
def lbr : Char := Char.ofNat 123

/-- Closing brace character (written via its code point). -/
def rbr : Char := Char.ofNat 125

/-- The `2*d` spaces of indentation: the indentation `JSON.stringify(·, null, 2)` puts at
nesting depth `d`. -/
def indentChars (d : Nat) : List Char := List.replicate (2 * d) ' '

/-- How `JSON.stringify` escapes one character inside a string literal:
quote and backslash get a backslash; backspace, tab, newline, form feed and
carriage return get their short escapes; the remaining control characters
get `\u00xx` (lowercase hex); everything else passes through. -/
def escapeChar (c : Char) : List Char :=
  if c = '"' then ['\\', '"']
  else if c = '\\' then ['\\', '\\']
  else if c = '\x08' then ['\\', 'b']
  else if c = '\x09' then ['\\', 't']
  else if c = '\x0a' then ['\\', 'n']
  else if c = '\x0c' then ['\\', 'f']
  else if c = '\x0d' then ['\\', 'r']
  else if c.toNat < 32 then
    ['\\', 'u', '0', '0', digitChar (c.toNat / 16), digitChar (c.toNat % 16)]
  else [c]

/-- Escape every character of a string body. -/
def escapeList : List Char → List Char
  | [] => []
  | c :: cs => escapeChar c ++ escapeList cs

/-- The character list of a string literal (used for the keyword tokens of
the serializer). -/
def chars (s : String) : List Char := s.data

mutual
/-- The characters `JSON.stringify(v, null, 2)` produces for a value at
nesting depth `d`: literals and numbers verbatim, strings quoted and
escaped, non-empty arrays and objects broken over lines with 2-space
indentation steps, empty ones as `[]` / `{}`. -/
def printVal (d : Nat) : Json → List Char
  | .null => chars "null"
  | .bool true => chars "true"
  | .bool false => chars "false"
  | .num n => intChars n
  | .str s => '"' :: escapeList s.data ++ ['"']
  | .arr [] => ['[', ']']
  | .arr (x :: xs) =>
      '[' :: '\n' :: indentChars (d + 1) ++ printVal (d + 1) x
        ++ printItems (d + 1) xs ++ '\n' :: indentChars d ++ [']']
  | .obj [] => [lbr, rbr]
  | .obj (kv :: rest) =>
      lbr :: '\n' :: indentChars (d + 1) ++ printKV (d + 1) kv
        ++ printMembers (d + 1) rest ++ '\n' :: indentChars d ++ [rbr]

/-- One `"key": value` member. -/
def printKV (d : Nat) (kv : String × Json) : List Char :=
  '"' :: escapeList kv.1.data ++ '"' :: ':' :: ' ' :: printVal d kv.2

/-- The remaining array items, each preceded by `,\n` and indentation. -/
def printItems (d : Nat) : List Json → List Char
  | [] => []
  | x :: xs => ',' :: '\n' :: indentChars d ++ printVal d x ++ printItems d xs

/-- The remaining object members, each preceded by `,\n` and indentation. -/
def printMembers (d : Nat) : List (String × Json) → List Char
  | [] => []
  | kv :: rest => ',' :: '\n' :: indentChars d ++ printKV d kv ++ printMembers d rest
end

/-- Model of `JSON.stringify(v, null, 2)` (src/index.ts line 63). -/
def stringify2 (v : Json) : String := String.mk (printVal 0 v)

/-! ## Result envelope builder (`ok`, src/index.ts lines 61–65) -/

/-- One content block of a tool result. -/
structure ContentBlock where
  type : String
  text : String

/-- The protocol result envelope: the only shape a tool handler returns. -/
structure Envelope where
  content : List ContentBlock

/-- The builder `ok(data)` wraps a value into an envelope holding a single `"text"`
content block whose text is the pretty-printed JSON of the value. -/
def ok (data : Json) : Envelope :=
  { content := [{ type := "text", text := stringify2 data }] }

/-! ## Tool argument schemas and handler request construction -/

/-- The `type` enum of send_message / edit_message. -/
inductive MsgType where
  | text | image | carousel

/-- Wire name of a message type. -/
def MsgType.toStr : MsgType → String
  | .text => "text"
  | .image => "image"
  | .carousel => "carousel"

/-- The button `action` enum. -/
inductive BtnAction where
  | callback | url | webApp

/-- Wire name of a button action. -/
def BtnAction.toStr : BtnAction → String
  | .callback => "callback"
  | .url => "url"
  | .webApp => "webApp"

/-- A button argument as validated by the schema (id, text, action required;
payload, url optional). -/
structure Button where
  id : String
  text : String
  action : BtnAction
  payload : Option String
  url : Option String

/-- A button as it appears in the serialized body: present optional fields
kept, absent ones dropped by `JSON.stringify`. -/
def Button.toJson (b : Button) : Json :=
  Json.obj
    ([("id", Json.str b.id), ("text", Json.str b.text),
      ("action", Json.str b.action.toStr)]
      ++ (match b.payload with | some p => [("payload", Json.str p)] | none => [])
      ++ (match b.url with | some u => [("url", Json.str u)] | none => []))

/-- A carousel card argument (id, title required; subtitle, imageUrl,
buttons optional). -/
structure Card where
  id : String
  title : String
  subtitle : Option String
  imageUrl : Option String
  buttons : Option (List Button)

/-- A card in the serialized body. -/
def Card.toJson (c : Card) : Json :=
  Json.obj
    ([("id", Json.str c.id), ("title", Json.str c.title)]
      ++ (match c.subtitle with | some s => [("subtitle", Json.str s)] | none => [])
      ++ (match c.imageUrl with | some u => [("imageUrl", Json.str u)] | none => [])
      ++ (match c.buttons with
          | some bs => [("buttons", Json.arr (bs.map Button.toJson))]
          | none => []))

/-- The conditional property insertion `if (args.x) content.k = args.x` for
an optional string argument: added exactly when present and non-empty
(JS string truthiness). -/
def strField (k : String) : Option String → List (String × Json)
  | some s => if s ≠ "" then [(k, Json.str s)] else []
  | none => []

/-- The conditional property insertion `if (args.xs) content.k = args.xs`
for an optional array argument: arrays are always truthy, so added exactly
when present (an empty array is still added). -/
def listField {α : Type} (k : String) (f : α → Json) : Option (List α) → List (String × Json)
  | some l => [(k, Json.arr (l.map f))]
  | none => []

/-- The conditional query insertion `if (args.x) query.k = args.x` for an
optional string argument. -/
def strQuery (k : String) : Option String → List (String × String)
  | some s => if s ≠ "" then [(k, s)] else []
  | none => []

/-- Rendering `n.toString()` for a validated integer argument. -/
def intDisplay (n : Int) : String := String.mk (intChars n)

/-- get_bot_info: `GET /api/bot/me`, no query, no body (lines 78–86). -/
def getBotInfoRequest : Request :=
  { method := "GET", path := "/api/bot/me", query := [], body := none }

/-- Validated arguments of send_message (`type` has zod default `"text"`,
so it is always present after validation). -/
structure SendMessageArgs where
  conversationId : String
  type : MsgType
  text : Option String
  imageUrl : Option String
  buttons : Option (List Button)
  cards : Option (List Card)

/-- Message-content assembly of send_message (lines 154–158): starts from
`{type}`, then conditionally adds `text`, `imageUrl`, `buttons`, `cards`. -/
def sendMessageContent (a : SendMessageArgs) : List (String × Json) :=
  [("type", Json.str a.type.toStr)]
    ++ strField "text" a.text
    ++ strField "imageUrl" a.imageUrl
    ++ listField "buttons" Button.toJson a.buttons
    ++ listField "cards" Card.toJson a.cards

/-- send_message: `POST /api/bot/messages` with `{conversationId, content}`
body (lines 160–163). -/
def sendMessageRequest (a : SendMessageArgs) : Request :=
  { method := "POST", path := "/api/bot/messages", query := [],
    body := some (Json.obj
      [("conversationId", Json.str a.conversationId),
       ("content", Json.obj (sendMessageContent a))]) }

/-- Validated arguments of edit_message (no `imageUrl`/`cards` in its
schema). -/
structure EditMessageArgs where
  messageId : String
  type : MsgType
  text : Option String
  buttons : Option (List Button)

/-- Message-content assembly of edit_message (lines 188–190). -/
def editMessageContent (a : EditMessageArgs) : List (String × Json) :=
  [("type", Json.str a.type.toStr)]
    ++ strField "text" a.text
    ++ listField "buttons" Button.toJson a.buttons

/-- edit_message: `PATCH /api/bot/messages/{messageId}` with `{content}`
body (lines 192–195). -/
def editMessageRequest (a : EditMessageArgs) : Request :=
  { method := "PATCH", path := "/api/bot/messages/" ++ a.messageId,
    query := [], body := some (Json.obj [("content", Json.obj (editMessageContent a))]) }

/-- delete_message: `DELETE /api/bot/messages/{messageId}` (line 206). -/
def deleteMessageRequest (messageId : String) : Request :=
  { method := "DELETE", path := "/api/bot/messages/" ++ messageId,
    query := [], body := none }

/-! ## zod numeric bounds and defaults -/

/-- Model of a `z.number().int().min(lo).max(hi).default(dflt)` field over
integer inputs: an omitted argument is filled with the default before the
handler runs; a supplied argument is rejected (`none`) outside `[lo, hi]`
and kept inside. -/
def zBoundedInt (lo hi dflt : Int) : Option Int → Option Int
  | none => some dflt
  | some n => if lo ≤ n ∧ n ≤ hi then some n else none

/-- Model of a `z.number().int().min(lo).default(dflt)` field (no upper
bound). -/
def zMinInt (lo dflt : Int) : Option Int → Option Int
  | none => some dflt
  | some n => if lo ≤ n then some n else none

/-- Field `list_conversations.limit`: `min(1).max(100).default(20)` (line 215). -/
def listConversationsLimit : Option Int → Option Int := zBoundedInt 1 100 20

/-- Field `list_conversations.offset`: `min(0).default(0)` (line 216). -/
def listConversationsOffset : Option Int → Option Int := zMinInt 0 0

/-- Field `get_conversation_messages.limit`: `min(1).max(100).default(50)`
(line 232). -/
def getConversationMessagesLimit : Option Int → Option Int := zBoundedInt 1 100 50

/-- Field `get_transaction_history.limit`: `min(1).max(50).default(20)`
(line 370). -/
def getTransactionHistoryLimit : Option Int → Option Int := zBoundedInt 1 50 20

/-! ## Remaining single-request tools -/

/-- Validated arguments of list_conversations (defaults applied). -/
structure ListConversationsArgs where
  limit : Int
  offset : Int

/-- list_conversations: `GET /api/bot/conversations?limit=…&offset=…`
(lines 219–222). -/
def listConversationsRequest (a : ListConversationsArgs) : Request :=
  { method := "GET", path := "/api/bot/conversations",
    query := [("limit", intDisplay a.limit), ("offset", intDisplay a.offset)],
    body := none }

/-- Validated arguments of get_conversation_messages. -/
structure GetConversationMessagesArgs where
  conversationId : String
  limit : Int
  before : Option String

/-- get_conversation_messages: `GET
/api/bot/conversations/{id}/messages` with `limit` always and `before` only
when truthy (lines 236–244). -/
def getConversationMessagesRequest (a : GetConversationMessagesArgs) : Request :=
  { method := "GET",
    path := "/api/bot/conversations/" ++ a.conversationId ++ "/messages",
    query := [("limit", intDisplay a.limit)] ++ strQuery "before" a.before,
    body := none }

/-- get_user: `GET /api/bot/users/{userId}` (line 256). -/
def getUserRequest (userId : String) : Request :=
  { method := "GET", path := "/api/bot/users/" ++ userId, query := [], body := none }

/-- get_wallet_balance: `GET /api/wallet/balance?address=…`
(lines 331–333). -/
def getWalletBalanceRequest (address : String) : Request :=
  { method := "GET", path := "/api/wallet/balance",
    query := [("address", address)], body := none }

/-- get_token_list: `GET /api/wallet/tokens` (line 343). -/
def getTokenListRequest : Request :=
  { method := "GET", path := "/api/wallet/tokens", query := [], body := none }

/-- JavaScript `v || dflt` on a `string | undefined`: the left operand when
present and non-empty, the default otherwise. -/
def jsOrStr (v : Option String) (dflt : String) : String :=
  match v with
  | some s => if s ≠ "" then s else dflt
  | none => dflt

/-- get_token_prices: `GET /api/wallet/prices?mints=…` where the handler
sends `args.mints || "all"` (lines 358–360). -/
def getTokenPricesRequest (mints : Option String) : Request :=
  { method := "GET", path := "/api/wallet/prices",
    query := [("mints", jsOrStr mints "all")], body := none }

/-- Validated arguments of get_transaction_history. -/
structure GetTransactionHistoryArgs where
  address : String
  limit : Int
  before : Option String

/-- get_transaction_history: `GET /api/wallet/transactions` with `address`
and `limit` always and `before` only when truthy (lines 374–380). -/
def getTransactionHistoryRequest (a : GetTransactionHistoryArgs) : Request :=
  { method := "GET", path := "/api/wallet/transactions",
    query := [("address", a.address), ("limit", intDisplay a.limit)]
      ++ strQuery "before" a.before,
    body := none }

/-- get_transaction_status: `GET /api/wallet/status?signature=…`
(lines 392–394). -/
def getTransactionStatusRequest (signature : String) : Request :=
  { method := "GET", path := "/api/wallet/status",
    query := [("signature", signature)], body := none }

/-- get_latest_blockhash: `GET /api/wallet/blockhash` (line 404). -/
def getLatestBlockhashRequest : Request :=
  { method := "GET", path := "/api/wallet/blockhash", query := [], body := none }

/-- send_transaction: `POST /api/wallet/send` with `{signedTransaction}`
body (lines 418–420). -/
def sendTransactionRequest (signedTransaction : String) : Request :=
  { method := "POST", path := "/api/wallet/send", query := [],
    body := some (Json.obj [("signedTransaction", Json.str signedTransaction)]) }

/-- simulate_transaction: `POST /api/wallet/simulate` with `{transaction}`
body (lines 432–434). -/
def simulateTransactionRequest (transaction : String) : Request :=
  { method := "POST", path := "/api/wallet/simulate", query := [],
    body := some (Json.obj [("transaction", Json.str transaction)]) }

/-! ## Two-step tools: set_webhook and set_welcome_message -/

/-- JavaScript property read `v.k` on a parsed JSON value: throws a
TypeError on `null` (modelled as `none`), yields the own property (or
`undefined`, the inner `none`) on objects, and yields `undefined` on other
primitives and arrays — the key read here (`id`) is not a built-in
property of any of those. -/
def jsProp : Json → String → Option (Option Json)
  | .null, _ => none
  | .obj kvs, k => some (getField kvs k)
  | _, _ => some none

/-- JavaScript truthiness of a possibly-`undefined` value, as tested by
`if (!appId)`: `undefined` is falsy. -/
def jsOptTruthy : Option Json → Bool
  | none => false
  | some v => v.truthy

/-- Serialization of a JS object literal's property list: `JSON.stringify`
drops properties whose value is `undefined` (`none`). -/
def dropUndefined (props : List (String × Option Json)) : List (String × Json) :=
  props.filterMap fun p => p.2.map fun v => (p.1, v)

/-- Validated arguments of set_webhook. -/
structure SetWebhookArgs where
  url : String
  events : Option (List String)

/-- The object literal `{url: args.url, events: args.events}` passed as the
set_webhook PUT body (lines 277–280); `events` is `undefined` when the
argument was omitted. -/
def setWebhookProps (a : SetWebhookArgs) : List (String × Option Json) :=
  [("url", some (Json.str a.url)),
   ("events", a.events.map fun es => Json.arr (es.map Json.str))]

/-- The set_webhook PUT body as `JSON.stringify` serializes it. -/
def setWebhookBody (a : SetWebhookArgs) : Json :=
  Json.obj (dropUndefined (setWebhookProps a))

/-- What a two-step tool does after its identity lookup came back: either
return the error envelope without issuing a PUT, or issue the PUT. -/
inductive TwoStepResult where
  | errorEnvelope (e : Envelope) : TwoStepResult
  | putRequest (r : Request) : TwoStepResult

/-- The error envelope set_webhook returns when no app id was found
(line 275). -/
def webhookErrEnvelope : Envelope :=
  ok (Json.obj [("error", Json.str "Could not determine app ID. Check your bot token.")])

/-- The set_webhook handler after the `GET /api/bot/me` response
`botInfo` arrived (lines 273–281): read `botInfo.id` (`none` result models
the TypeError thrown on a `null` response), short-circuit with the error
envelope if it is absent or falsy, else `PUT
/api/developer/apps/{id}/webhook`. -/
def setWebhookOutcome (a : SetWebhookArgs) (botInfo : Json) : Option TwoStepResult :=
  match jsProp botInfo "id" with
  | none => none
  | some (some idv) =>
      if idv.truthy then
        some (.putRequest
          { method := "PUT",
            path := "/api/developer/apps/" ++ idv.display ++ "/webhook",
            query := [], body := some (setWebhookBody a) })
      else some (.errorEnvelope webhookErrEnvelope)
  | some none => some (.errorEnvelope webhookErrEnvelope)

/-- Validated arguments of set_welcome_message. -/
structure SetWelcomeMessageArgs where
  text : String
  buttons : Option (List Button)

/-- The welcome-message content `{type: "text", text}` plus conditional
`buttons` (lines 308–309). -/
def welcomeContent (a : SetWelcomeMessageArgs) : List (String × Json) :=
  [("type", Json.str "text"), ("text", Json.str a.text)]
    ++ listField "buttons" Button.toJson a.buttons

/-- The error envelope set_welcome_message returns when no app id was
found (line 306). -/
def welcomeErrEnvelope : Envelope :=
  ok (Json.obj [("error", Json.str "Could not determine app ID.")])

/-- The set_welcome_message handler after the identity lookup response
arrived (lines 304–315). -/
def setWelcomeMessageOutcome (a : SetWelcomeMessageArgs) (botInfo : Json) :
    Option TwoStepResult :=
  match jsProp botInfo "id" with
  | none => none
  | some (some idv) =>
      if idv.truthy then
        some (.putRequest
          { method := "PUT",
            path := "/api/developer/apps/" ++ idv.display ++ "/welcome-message",
            query := [],
            body := some (Json.obj [("content", Json.obj (welcomeContent a))]) })
      else some (.errorEnvelope welcomeErrEnvelope)
  | some none => some (.errorEnvelope welcomeErrEnvelope)

/-- The identity-lookup call both two-step tools issue first:
`GET /api/bot/me` (lines 273 and 304). -/
def identityLookupRequest : Request :=
  { method := "GET", path := "/api/bot/me", query := [], body := none }

/-! ## `JSON.parse` — a parser for standard JSON (integral numbers) -/

/-- JSON whitespace. -/
def isWsC (c : Char) : Bool := c = ' ' || c = '\n' || c = '\t' || c = '\r'

/-- Drop leading JSON whitespace. -/
def skipWs : List Char → List Char
  | [] => []
  | c :: cs => if isWsC c then skipWs cs else c :: cs

/-- Value of a hex digit (either case). -/
def hexVal (c : Char) : Option Nat :=
  if 48 ≤ c.toNat ∧ c.toNat ≤ 57 then some (c.toNat - 48)
  else if 97 ≤ c.toNat ∧ c.toNat ≤ 102 then some (c.toNat - 87)
  else if 65 ≤ c.toNat ∧ c.toNat ≤ 70 then some (c.toNat - 55)
  else none

/-- Decode a single-character string escape. -/
def escDecode (e : Char) : Option Char :=
  if e = '"' then some '"'
  else if e = '\\' then some '\\'
  else if e = '/' then some '/'
  else if e = 'b' then some '\x08'
  else if e = 't' then some '\x09'
  else if e = 'n' then some '\x0a'
  else if e = 'f' then some '\x0c'
  else if e = 'r' then some '\x0d'
  else none

/-- Parse the body of a string literal after the opening quote, up to and
including the closing quote; returns the decoded characters and the rest
of the input. -/
def parseStrBody : List Char → Option (List Char × List Char)
  | [] => none
  | c :: cs =>
    if c = '"' then some ([], cs)
    else if c = '\\' then
      match cs with
      | [] => none
      | e :: cs2 =>
        if e = 'u' then
          match cs2 with
          | a :: b :: c3 :: d4 :: cs3 =>
            match hexVal a, hexVal b, hexVal c3, hexVal d4 with
            | some ha, some hb, some hc, some hd =>
              (parseStrBody cs3).map fun p =>
                (Char.ofNat (((ha * 16 + hb) * 16 + hc) * 16 + hd) :: p.1, p.2)
            | _, _, _, _ => none
          | _ => none
        else
          match escDecode e with
          | some ec => (parseStrBody cs2).map fun p => (ec :: p.1, p.2)
          | none => none
    else (parseStrBody cs).map fun p => (c :: p.1, p.2)

/-- Consume a maximal run of decimal digits, folding them onto `acc`. -/
def readDigits (acc : Nat) : List Char → Nat × List Char
  | [] => (acc, [])
  | c :: cs =>
    if c.isDigit then readDigits (acc * 10 + (c.toNat - 48)) cs else (acc, c :: cs)

/-- JavaScript property assignment `o[k] = v` on an object built left to
right: an existing key keeps its position and gets the new value, a fresh
key is appended — this is how `JSON.parse` resolves duplicate keys
(last value wins). -/
def jsSet (kvs : List (String × Json)) (k : String) (v : Json) : List (String × Json) :=
  match kvs with
  | [] => [(k, v)]
  | (k', v') :: rest => if k' = k then (k', v) :: rest else (k', v') :: jsSet rest k v

/-- Assemble an object from its members in parse order via `jsSet`. -/
def buildObj (pairs : List (String × Json)) : List (String × Json) :=
  pairs.foldl (fun acc kv => jsSet acc kv.1 kv.2) []

mutual
/-- Parse one JSON value (leading whitespace allowed), with a fuel bound
on nesting; returns the value and the unconsumed rest. -/
def parseVal : Nat → List Char → Option (Json × List Char)
  | 0, _ => none
  | fuel + 1, chars =>
    match skipWs chars with
    | [] => none
    | c :: cs =>
      if c = 'n' then
        match cs with
        | 'u' :: 'l' :: 'l' :: r => some (.null, r)
        | _ => none
      else if c = 't' then
        match cs with
        | 'r' :: 'u' :: 'e' :: r => some (.bool true, r)
        | _ => none
      else if c = 'f' then
        match cs with
        | 'a' :: 'l' :: 's' :: 'e' :: r => some (.bool false, r)
        | _ => none
      else if c = '"' then
        (parseStrBody cs).map fun p => (.str (String.mk p.1), p.2)
      else if c = '[' then
        match skipWs cs with
        | [] => none
        | d :: r =>
          if d = ']' then some (.arr [], r)
          else (parseItems fuel cs).map fun p => (.arr p.1, p.2)
      else if c = lbr then
        match skipWs cs with
        | [] => none
        | d :: r =>
          if d = rbr then some (.obj [], r)
          else (parseMembers fuel cs).map fun p => (.obj (buildObj p.1), p.2)
      else if c = '-' then
        match cs with
        | [] => none
        | d :: _ =>
          if d.isDigit then
            let p := readDigits 0 cs
            some (.num (-(p.1 : Int)), p.2)
          else none
      else if c.isDigit then
        let p := readDigits 0 (c :: cs)
        some (.num (p.1 : Int), p.2)
      else none

/-- Parse the items of a non-empty array (after the opening bracket),
including the closing bracket. -/
def parseItems : Nat → List Char → Option (List Json × List Char)
  | 0, _ => none
  | fuel + 1, chars => do
    let (v, r) ← parseVal fuel chars
    match skipWs r with
    | ',' :: r2 => do
        let (vs, r3) ← parseItems fuel r2
        some (v :: vs, r3)
    | ']' :: r2 => some ([v], r2)
    | _ => none

/-- Parse the members of a non-empty object (after the opening brace),
including the closing brace; yields the raw key-value pairs in parse
order. -/
def parseMembers : Nat → List Char → Option (List (String × Json) × List Char)
  | 0, _ => none
  | fuel + 1, chars =>
    match skipWs chars with
    | '"' :: cs => do
      let (k, r) ← parseStrBody cs
      match skipWs r with
      | ':' :: r2 => do
        let (v, r3) ← parseVal fuel r2
        match skipWs r3 with
        | ',' :: r4 => do
            let (kvs, r5) ← parseMembers fuel r4
            some ((String.mk k, v) :: kvs, r5)
        | d :: r4 => if d = rbr then some ([(String.mk k, v)], r4) else none
        | [] => none
      | _ => none
    | _ => none
end

/-- Model of `JSON.parse`: parse a complete JSON text (the fuel `length + 1` always
suffices); fails if anything but whitespace follows the value. -/
def parseJson (s : String) : Option Json :=
  match parseVal (s.length + 1) s.data with
  | some (v, r) => if skipWs r = [] then some v else none
  | none => none

/-- Rests that can follow a printed value inside `stringify2` output:
nothing (top level), a comma (before the next item/member), or a newline
(before the closing bracket/brace). -/
def OkRest (rest : List Char) : Prop :=
  rest = [] ∨ (∃ t, rest = ',' :: t) ∨ (∃ t, rest = '\n' :: t)


/-- The response normalization of `apiCall` (src/index.ts lines 53–58): parse
the body text as JSON; on success return the parsed value regardless of
the HTTP status; on failure return the fallback `{status, body}`. -/
def apiResult (status : Nat) (text : String) : Json :=
  match parseJson text with
  | some v => v
  | none => Json.obj [("status", Json.num (status : Int)), ("body", Json.str text)]

/-! ## Well-formed JSON values and parse-fuel sizes -/

/-- No string occurs twice in the list. -/
def distinctKeys : List String → Bool
  | [] => true
  | k :: ks => !(decide (k ∈ ks)) && distinctKeys ks

mutual
/-- A JSON value arising from a JavaScript value: every object has
pairwise-distinct keys (JS objects cannot carry a key twice). -/
def Json.wfB : Json → Bool
  | .null => true
  | .bool _ => true
  | .num _ => true
  | .str _ => true
  | .arr xs => wfList xs
  | .obj kvs => distinctKeys (keysOf kvs) && wfKVs kvs

/-- All array elements well-formed. -/
def wfList : List Json → Bool
  | [] => true
  | x :: xs => x.wfB && wfList xs

/-- All member values well-formed. -/
def wfKVs : List (String × Json) → Bool
  | [] => true
  | kv :: rest => kv.2.wfB && wfKVs rest
end

mutual
/-- Fuel needed by `parseVal` to parse the printed form of a value. -/
def sizeJ : Json → Nat
  | .null => 1
  | .bool _ => 1
  | .num _ => 1
  | .str _ => 1
  | .arr xs => sizeI xs + 1
  | .obj kvs => sizeM kvs + 1

/-- Fuel needed by `parseItems` for a list of array items. -/
def sizeI : List Json → Nat
  | [] => 1
  | x :: xs => sizeJ x + sizeI xs + 1

/-- Fuel needed by `parseMembers` for a list of object members. -/
def sizeM : List (String × Json) → Nat
  | [] => 1
  | kv :: rest => sizeJ kv.2 + sizeM rest + 1
end

/-- At this fuel, `parseVal` inverts `printVal` on well-formed values. -/
def ParsesVal (fuel : Nat) : Prop :=
  ∀ v d rest, sizeJ v ≤ fuel → Json.wfB v = true → OkRest rest →
    parseVal fuel (printVal d v ++ rest) = some (v, rest)

/-- At this fuel, `parseItems` inverts the printed items of a non-empty
array (after any whitespace preamble), consuming the closing bracket. -/
def ParsesItems (fuel : Nat) : Prop :=
  ∀ x xs d rest pre, (∀ c ∈ pre, isWsC c = true) → sizeI (x :: xs) ≤ fuel →
    wfList (x :: xs) = true →
    parseItems fuel (pre ++ (printVal (d + 1) x ++ (printItems (d + 1) xs
      ++ '\n' :: (indentChars d ++ (']' :: rest))))) = some (x :: xs, rest)

/-- At this fuel, `parseMembers` inverts the printed members of a
non-empty object, consuming the closing brace. -/
def ParsesMembers (fuel : Nat) : Prop :=
  ∀ kv kvs d rest pre, (∀ c ∈ pre, isWsC c = true) → sizeM (kv :: kvs) ≤ fuel →
    wfKVs (kv :: kvs) = true →
    parseMembers fuel (pre ++ (printKV (d + 1) kv ++ (printMembers (d + 1) kvs
      ++ '\n' :: (indentChars d ++ (rbr :: rest))))) = some (kv :: kvs, rest)

/-! ## The tool catalog as a whole (for the per-tool request property) -/

/-- One tool invocation with its validated argument set (defaults already
substituted by the schema layer); the two-step tools additionally carry
the identity-lookup response their second step depends on. -/
inductive Invocation where
  | getBotInfo
  | sendMessage (a : SendMessageArgs)
  | editMessage (a : EditMessageArgs)
  | deleteMessage (messageId : String)
  | listConversations (a : ListConversationsArgs)
  | getConversationMessages (a : GetConversationMessagesArgs)
  | getUser (userId : String)
  | setWebhook (a : SetWebhookArgs) (botInfo : Json)
  | setWelcomeMessage (a : SetWelcomeMessageArgs) (botInfo : Json)
  | getWalletBalance (address : String)
  | getTokenList
  | getTokenPrices (mints : Option String)
  | getTransactionHistory (a : GetTransactionHistoryArgs)
  | getTransactionStatus (signature : String)
  | getLatestBlockhash
  | sendTransaction (signedTransaction : String)
  | simulateTransaction (transaction : String)

/-- All outbound requests a handler issues for an invocation, in order;
for the two-step tools this is the identity lookup plus the PUT when one
is issued. -/
def requestsOf : Invocation → List Request
  | .getBotInfo => [getBotInfoRequest]
  | .sendMessage a => [sendMessageRequest a]
  | .editMessage a => [editMessageRequest a]
  | .deleteMessage m => [deleteMessageRequest m]
  | .listConversations a => [listConversationsRequest a]
  | .getConversationMessages a => [getConversationMessagesRequest a]
  | .getUser u => [getUserRequest u]
  | .setWebhook a botInfo =>
      identityLookupRequest ::
        (match setWebhookOutcome a botInfo with
         | some (.putRequest r) => [r]
         | _ => [])
  | .setWelcomeMessage a botInfo =>
      identityLookupRequest ::
        (match setWelcomeMessageOutcome a botInfo with
         | some (.putRequest r) => [r]
         | _ => [])
  | .getWalletBalance addr => [getWalletBalanceRequest addr]
  | .getTokenList => [getTokenListRequest]
  | .getTokenPrices m => [getTokenPricesRequest m]
  | .getTransactionHistory a => [getTransactionHistoryRequest a]
  | .getTransactionStatus s => [getTransactionStatusRequest s]
  | .getLatestBlockhash => [getLatestBlockhashRequest]
  | .sendTransaction t => [sendTransactionRequest t]
  | .simulateTransaction t => [simulateTransactionRequest t]

/-- The documented method and path of each tool, following the spec's
catalog (§4.3: name → verb+path, path parameters substituted); for the
two-step tools a request may be either the lookup or the PUT addressed by
some id. This is the spec-side description the code-side `requestsOf` is
compared against. -/
def catalogConforms : Invocation → Request → Prop
  | .getBotInfo, r => r.method = "GET" ∧ r.path = "/api/bot/me"
  | .sendMessage _, r => r.method = "POST" ∧ r.path = "/api/bot/messages"
  | .editMessage a, r =>
      r.method = "PATCH" ∧ r.path = "/api/bot/messages/" ++ a.messageId
  | .deleteMessage m, r =>
      r.method = "DELETE" ∧ r.path = "/api/bot/messages/" ++ m
  | .listConversations _, r =>
      r.method = "GET" ∧ r.path = "/api/bot/conversations"
  | .getConversationMessages a, r =>
      r.method = "GET" ∧
        r.path = "/api/bot/conversations/" ++ a.conversationId ++ "/messages"
  | .getUser u, r => r.method = "GET" ∧ r.path = "/api/bot/users/" ++ u
  | .setWebhook _ _, r =>
      (r.method = "GET" ∧ r.path = "/api/bot/me") ∨
        (r.method = "PUT" ∧
          ∃ appId, r.path = "/api/developer/apps/" ++ appId ++ "/webhook")
  | .setWelcomeMessage _ _, r =>
      (r.method = "GET" ∧ r.path = "/api/bot/me") ∨
        (r.method = "PUT" ∧
          ∃ appId, r.path = "/api/developer/apps/" ++ appId ++ "/welcome-message")
  | .getWalletBalance _, r => r.method = "GET" ∧ r.path = "/api/wallet/balance"
  | .getTokenList, r => r.method = "GET" ∧ r.path = "/api/wallet/tokens"
  | .getTokenPrices _, r => r.method = "GET" ∧ r.path = "/api/wallet/prices"
  | .getTransactionHistory _, r =>
      r.method = "GET" ∧ r.path = "/api/wallet/transactions"
  | .getTransactionStatus _, r => r.method = "GET" ∧ r.path = "/api/wallet/status"
  | .getLatestBlockhash, r => r.method = "GET" ∧ r.path = "/api/wallet/blockhash"
  | .sendTransaction _, r => r.method = "POST" ∧ r.path = "/api/wallet/send"
  | .simulateTransaction _, r => r.method = "POST" ∧ r.path = "/api/wallet/simulate"

/-- The query-parameter values the caller supplied for an invocation, as
key/value strings: the spec-side reading of "the non-empty supplied
values" (validated arguments, defaults included; an omitted optional
argument supplies nothing). -/
def suppliedPairs : Invocation → List (String × String)
  | .getBotInfo => []
  | .sendMessage _ => []
  | .editMessage _ => []
  | .deleteMessage _ => []
  | .listConversations a =>
      [("limit", intDisplay a.limit), ("offset", intDisplay a.offset)]
  | .getConversationMessages a =>
      [("limit", intDisplay a.limit)] ++
        (match a.before with | some s => [("before", s)] | none => [])
  | .getUser _ => []
  | .setWebhook _ _ => []
  | .setWelcomeMessage _ _ => []
  | .getWalletBalance addr => [("address", addr)]
  | .getTokenList => []
  | .getTokenPrices m => (match m with | some s => [("mints", s)] | none => [])
  | .getTransactionHistory a =>
      [("address", a.address), ("limit", intDisplay a.limit)] ++
        (match a.before with | some s => [("before", s)] | none => [])
  | .getTransactionStatus s => [("signature", s)]
  | .getLatestBlockhash => []
  | .sendTransaction _ => []
  | .simulateTransaction _ => []

/-! ## Helper lemmas -/

/-- Keys distribute over property-list concatenation. -/
theorem keysOf_append (l1 l2 : List (String × Json)) :
    keysOf (l1 ++ l2) = keysOf l1 ++ keysOf l2 :=
  List.map_append _ _ _

/-- Membership in the keys of a conditional string field. -/
theorem mem_keys_strField (k k' : String) (v : Option String) :
    (k ∈ keysOf (strField k' v)) ↔ (k = k' ∧ strTruthy v = true) := by
  rcases v with _ | s
  · simp [strField, keysOf, strTruthy]
  · by_cases hs : s = "" <;> simp [strField, keysOf, strTruthy, hs]

/-- Membership in the keys of a conditional array field. -/
theorem mem_keys_listField {α : Type} (k k' : String) (f : α → Json)
    (v : Option (List α)) :
    (k ∈ keysOf (listField k' f v)) ↔ (k = k' ∧ v.isSome = true) := by
  rcases v with _ | l <;> simp [listField, keysOf]

/-- Membership in the keys of a cons property list. -/
theorem mem_keys_cons (k k' : String) (v : Json) (rest : List (String × Json)) :
    (k ∈ keysOf ((k', v) :: rest)) ↔ (k = k' ∨ k ∈ keysOf rest) := by
  simp [keysOf]

/-- The only PUT request set_webhook can issue: addressed by a truthy id
read from the lookup response. -/
theorem setWebhookOutcome_put_shape (a : SetWebhookArgs) (botInfo : Json)
    (pr : Request) (h : setWebhookOutcome a botInfo = some (.putRequest pr)) :
    ∃ idv, jsProp botInfo "id" = some (some idv) ∧ idv.truthy = true ∧
      pr = { method := "PUT",
             path := "/api/developer/apps/" ++ idv.display ++ "/webhook",
             query := [], body := some (setWebhookBody a) } := by
  rcases hj : jsProp botInfo "id" with _ | appId
  · simp [setWebhookOutcome, hj] at h
  · rcases appId with _ | idv
    · simp [setWebhookOutcome, hj] at h
    · by_cases ht : idv.truthy
      · refine ⟨idv, rfl, ht, ?_⟩
        simp [setWebhookOutcome, hj, ht] at h
        exact h.symm
      · simp [setWebhookOutcome, hj, ht] at h

/-- The only PUT request set_welcome_message can issue. -/
theorem setWelcomeMessageOutcome_put_shape (a : SetWelcomeMessageArgs)
    (botInfo : Json) (pr : Request)
    (h : setWelcomeMessageOutcome a botInfo = some (.putRequest pr)) :
    ∃ idv, jsProp botInfo "id" = some (some idv) ∧ idv.truthy = true ∧
      pr = { method := "PUT",
             path := "/api/developer/apps/" ++ idv.display ++ "/welcome-message",
             query := [],
             body := some (Json.obj [("content", Json.obj (welcomeContent a))]) } := by
  rcases hj : jsProp botInfo "id" with _ | appId
  · simp [setWelcomeMessageOutcome, hj] at h
  · rcases appId with _ | idv
    · simp [setWelcomeMessageOutcome, hj] at h
    · by_cases ht : idv.truthy
      · refine ⟨idv, rfl, ht, ?_⟩
        simp [setWelcomeMessageOutcome, hj, ht] at h
        exact h.symm
      · simp [setWelcomeMessageOutcome, hj, ht] at h

/-! ## Claims -/

/-- C1: for send_message and edit_message, the assembled content object
always contains `type`, and contains each of `text`, `imageUrl`,
`buttons`, `cards` exactly when the corresponding argument was supplied
and truthy (strings: present and non-empty; arrays: present, since arrays
are always truthy). edit_message's schema has no `imageUrl`/`cards`
arguments, and its content never contains those fields. -/
theorem message_content_fields (a : SendMessageArgs) (b : EditMessageArgs) :
    "type" ∈ keysOf (sendMessageContent a) ∧
    ("text" ∈ keysOf (sendMessageContent a) ↔ strTruthy a.text = true) ∧
    ("imageUrl" ∈ keysOf (sendMessageContent a) ↔ strTruthy a.imageUrl = true) ∧
    ("buttons" ∈ keysOf (sendMessageContent a) ↔ a.buttons.isSome = true) ∧
    ("cards" ∈ keysOf (sendMessageContent a) ↔ a.cards.isSome = true) ∧
    "type" ∈ keysOf (editMessageContent b) ∧
    ("text" ∈ keysOf (editMessageContent b) ↔ strTruthy b.text = true) ∧
    ("buttons" ∈ keysOf (editMessageContent b) ↔ b.buttons.isSome = true) ∧
    "imageUrl" ∉ keysOf (editMessageContent b) ∧
    "cards" ∉ keysOf (editMessageContent b) := by
  have single : ∀ (k k' : String) (v : Json),
      (k ∈ keysOf [(k', v)]) ↔ k = k' := by
    intro k k' v; simp [keysOf]
  simp only [sendMessageContent, editMessageContent, keysOf_append,
    List.mem_append, mem_keys_strField, mem_keys_listField, single]
  simp

/-- Witness for C1 at a concrete argument set: text supplied non-empty,
imageUrl empty (falsy, dropped), buttons an empty array (truthy, kept),
cards omitted. -/
theorem message_content_fields_witness :
    "text" ∈ keysOf (sendMessageContent
      ⟨"c1", .text, some "hi", some "", some [], none⟩) ∧
    ¬ "imageUrl" ∈ keysOf (sendMessageContent
      ⟨"c1", .text, some "hi", some "", some [], none⟩) ∧
    "buttons" ∈ keysOf (sendMessageContent
      ⟨"c1", .text, some "hi", some "", some [], none⟩) ∧
    ¬ "cards" ∈ keysOf (sendMessageContent
      ⟨"c1", .text, some "hi", some "", some [], none⟩) := by
  have h := message_content_fields ⟨"c1", .text, some "hi", some "", some [], none⟩
    ⟨"m1", .text, none, none⟩
  exact ⟨h.2.1.mpr (by decide), fun hm => absurd (h.2.2.1.mp hm) (by decide),
    h.2.2.2.1.mpr (by decide), fun hm => absurd (h.2.2.2.2.1.mp hm) (by decide)⟩

/-- C2 (amended): `list_conversations.limit` outside `[1,100]` is rejected
by the schema before the handler runs, and an omitted limit defaults
to 20; `get_transaction_history.limit` outside `[1,50]` is rejected, and
an omitted limit defaults to 20 (not 50 — the schema says
`.default(20)`). -/
theorem limit_bounds_and_defaults (n : Int) :
    (¬(1 ≤ n ∧ n ≤ 100) → listConversationsLimit (some n) = none) ∧
    ((1 ≤ n ∧ n ≤ 100) → listConversationsLimit (some n) = some n) ∧
    listConversationsLimit none = some 20 ∧
    (¬(1 ≤ n ∧ n ≤ 50) → getTransactionHistoryLimit (some n) = none) ∧
    ((1 ≤ n ∧ n ≤ 50) → getTransactionHistoryLimit (some n) = some n) ∧
    getTransactionHistoryLimit none = some 20 := by
  refine ⟨fun h => ?_, fun h => ?_, rfl, fun h => ?_, fun h => ?_, rfl⟩ <;>
    simp [listConversationsLimit, getTransactionHistoryLimit, zBoundedInt, h]

/-- Witness for C2 (amended) at concrete limits: 101 is rejected for
list_conversations, 51 for get_transaction_history. -/
theorem limit_bounds_witness :
    listConversationsLimit (some 101) = none ∧
    getTransactionHistoryLimit (some 51) = none :=
  ⟨(limit_bounds_and_defaults 101).1 (by decide),
   (limit_bounds_and_defaults 51).2.2.2.1 (by decide)⟩

/-- C2 counterexample: an omitted `get_transaction_history.limit` defaults
to 20, not to 50 as claimed. -/
theorem txHistory_default_is_20_not_50 :
    getTransactionHistoryLimit none = some 20 ∧
    ¬ getTransactionHistoryLimit none = some 50 :=
  ⟨rfl, by decide⟩

/-- C7: every outbound request carries `Content-Type: application/json`;
the `X-Bot-Token` header is present exactly when a non-empty token was
configured at process start, and with no token the header set contains
nothing else. -/
theorem headers_content_type_and_token (botToken : String) :
    ("Content-Type", "application/json") ∈ headersFor botToken ∧
    ((∃ v, ("X-Bot-Token", v) ∈ headersFor botToken) ↔ botToken ≠ "") ∧
    (botToken = "" → headersFor botToken = [("Content-Type", "application/json")]) := by
  by_cases h : botToken = "" <;> simp [headersFor, h]

/-- Witness for C7 at the empty and a non-empty token. -/
theorem headers_witness :
    headersFor "" = [("Content-Type", "application/json")] ∧
    ("Content-Type", "application/json") ∈ headersFor "secret" :=
  ⟨(headers_content_type_and_token "").2.2 rfl,
   (headers_content_type_and_token "secret").1⟩

/-- C8: a query key whose value is the empty string (the only falsy
string) is omitted from the outbound URL parameters; a pair is sent
exactly when it was in the handler's query record with a non-empty
value. -/
theorem empty_query_values_dropped (q : List (String × String)) (k v : String) :
    ((k, v) ∈ sentParams q ↔ ((k, v) ∈ q ∧ v ≠ "")) ∧
    (k, "") ∉ sentParams q := by
  constructor
  · simp [sentParams, List.mem_filter]
  · simp [sentParams, List.mem_filter]

/-- Witness for C8 on a concrete query record with one empty value. -/
theorem empty_query_witness :
    ((("b", "x") ∈ sentParams [("a", "x"), ("b", "")] ↔
      (("b", "x") ∈ [("a", "x"), ("b", "")] ∧ "x" ≠ "")) ∧
    ("b", "") ∉ sentParams [("a", "x"), ("b", "")]) :=
  empty_query_values_dropped [("a", "x"), ("b", "")] "b" "x"

/-- C9: get_token_prices always sends a `mints` query parameter: `"all"`
when the argument was omitted or empty, the supplied value when it is a
non-empty string. -/
theorem token_prices_mints_query (m : Option String) :
    (∃ v, ("mints", v) ∈ sentParams (getTokenPricesRequest m).query) ∧
    (m = none → sentParams (getTokenPricesRequest m).query = [("mints", "all")]) ∧
    (m = some "" → sentParams (getTokenPricesRequest m).query = [("mints", "all")]) ∧
    (∀ s, m = some s → s ≠ "" →
      sentParams (getTokenPricesRequest m).query = [("mints", s)]) := by
  refine ⟨?_, fun h => ?_, fun h => ?_, fun s hm hs => ?_⟩
  · rcases m with _ | s
    · exact ⟨"all", by simp [getTokenPricesRequest, jsOrStr, sentParams]⟩
    · by_cases hs : s = ""
      · exact ⟨"all", by simp [getTokenPricesRequest, jsOrStr, sentParams, hs]⟩
      · exact ⟨s, by simp [getTokenPricesRequest, jsOrStr, sentParams, hs]⟩
  · subst h; rfl
  · subst h; rfl
  · subst hm; simp [getTokenPricesRequest, jsOrStr, sentParams, hs]

/-- Witness for C9: omitted and non-empty mints arguments. -/
theorem token_prices_witness :
    sentParams (getTokenPricesRequest none).query = [("mints", "all")] ∧
    sentParams (getTokenPricesRequest (some "m1,m2")).query = [("mints", "m1,m2")] :=
  ⟨(token_prices_mints_query none).2.1 rfl,
   (token_prices_mints_query (some "m1,m2")).2.2.2 "m1,m2" rfl (by decide)⟩

/-- C10: the serialized set_webhook PUT body has an `events` key exactly
when the `events` argument was supplied (`JSON.stringify` drops the
`undefined`-valued property); with `events` omitted the body is the object
with just `url`. -/
theorem webhook_body_events_iff (a : SetWebhookArgs) :
    "url" ∈ keysOf (dropUndefined (setWebhookProps a)) ∧
    ("events" ∈ keysOf (dropUndefined (setWebhookProps a)) ↔ a.events.isSome = true) ∧
    (a.events = none → setWebhookBody a = Json.obj [("url", Json.str a.url)]) := by
  obtain ⟨u, ev⟩ := a
  rcases ev with _ | es <;>
    simp [setWebhookProps, dropUndefined, setWebhookBody, keysOf]

/-- Witness for C10: omitted events give a url-only body; supplied events
appear. -/
theorem webhook_body_witness :
    setWebhookBody ⟨"https://example.com/h", none⟩ =
      Json.obj [("url", Json.str "https://example.com/h")] ∧
    "events" ∈ keysOf (dropUndefined (setWebhookProps
      ⟨"https://example.com/h", some ["message"]⟩)) :=
  ⟨(webhook_body_events_iff ⟨"https://example.com/h", none⟩).2.2 rfl,
   (webhook_body_events_iff ⟨"https://example.com/h", some ["message"]⟩).2.1.mpr
     (by decide)⟩

/-- C3 (amended): for set_webhook and set_welcome_message, whenever the
identity lookup yields an `id` that is absent or falsy (which requires the
response not to be `null`), the tool returns the envelope wrapping the
`{error: …}` object and issues no PUT; whenever the id is truthy, the PUT
addressed by that id is issued; a PUT is only ever issued under a truthy
id; a `null` lookup response makes the handler throw (still no PUT, but
no error envelope either). -/
theorem two_step_lookup_gates_put (wa : SetWebhookArgs)
    (wm : SetWelcomeMessageArgs) (botInfo : Json) :
    (∀ appId, jsProp botInfo "id" = some appId → jsOptTruthy appId = false →
      setWebhookOutcome wa botInfo = some (.errorEnvelope webhookErrEnvelope) ∧
      setWelcomeMessageOutcome wm botInfo = some (.errorEnvelope welcomeErrEnvelope)) ∧
    (∀ idv, jsProp botInfo "id" = some (some idv) → idv.truthy = true →
      setWebhookOutcome wa botInfo = some (.putRequest
        { method := "PUT",
          path := "/api/developer/apps/" ++ idv.display ++ "/webhook",
          query := [], body := some (setWebhookBody wa) }) ∧
      setWelcomeMessageOutcome wm botInfo = some (.putRequest
        { method := "PUT",
          path := "/api/developer/apps/" ++ idv.display ++ "/welcome-message",
          query := [],
          body := some (Json.obj [("content", Json.obj (welcomeContent wm))]) })) ∧
    (∀ r, setWebhookOutcome wa botInfo = some (.putRequest r) →
      ∃ idv, jsProp botInfo "id" = some (some idv) ∧ idv.truthy = true) ∧
    (∀ r, setWelcomeMessageOutcome wm botInfo = some (.putRequest r) →
      ∃ idv, jsProp botInfo "id" = some (some idv) ∧ idv.truthy = true) ∧
    (botInfo = Json.null → setWebhookOutcome wa botInfo = none ∧
      setWelcomeMessageOutcome wm botInfo = none) := by
  refine ⟨fun appId h hf => ?_, fun idv h ht => ?_, fun r hr => ?_, fun r hr => ?_,
    fun hn => ?_⟩
  · rcases appId with _ | idv
    · constructor <;> simp [setWebhookOutcome, setWelcomeMessageOutcome, h]
    · have ht : idv.truthy = false := by simpa [jsOptTruthy] using hf
      constructor <;> simp [setWebhookOutcome, setWelcomeMessageOutcome, h, ht]
  · constructor <;> simp [setWebhookOutcome, setWelcomeMessageOutcome, h, ht]
  · obtain ⟨idv, hj, ht, _⟩ := setWebhookOutcome_put_shape wa botInfo r hr
    exact ⟨idv, hj, ht⟩
  · obtain ⟨idv, hj, ht, _⟩ := setWelcomeMessageOutcome_put_shape wm botInfo r hr
    exact ⟨idv, hj, ht⟩
  · subst hn; exact ⟨rfl, rfl⟩

/-- Witness for C3 (amended): a lookup response with a truthy id issues
the PUT addressed by it; a response without an id returns the error
envelope. -/
theorem two_step_witness :
    setWebhookOutcome ⟨"https://e.com/h", none⟩ (Json.obj [("id", Json.str "app1")]) =
      some (.putRequest
        { method := "PUT", path := "/api/developer/apps/app1/webhook",
          query := [], body := some (setWebhookBody ⟨"https://e.com/h", none⟩) }) ∧
    setWelcomeMessageOutcome ⟨"hi", none⟩ (Json.obj []) =
      some (.errorEnvelope welcomeErrEnvelope) := by
  constructor
  · exact ((two_step_lookup_gates_put ⟨"https://e.com/h", none⟩ ⟨"hi", none⟩
      (Json.obj [("id", Json.str "app1")])).2.1 (Json.str "app1") rfl rfl).1
  · exact ((two_step_lookup_gates_put ⟨"https://e.com/h", none⟩ ⟨"hi", none⟩
      (Json.obj [])).1 none rfl rfl).2

/-- C3 counterexample: the identity-lookup response `null` has no id
field, yet neither tool returns the error envelope — the handler throws a
TypeError reading `.id` of `null` (modelled by `none`). -/
theorem null_lookup_response_throws :
    setWebhookOutcome ⟨"https://example.com/h", none⟩ Json.null = none ∧
    setWelcomeMessageOutcome ⟨"hello", none⟩ Json.null = none ∧
    jsProp Json.null "id" = none :=
  ⟨rfl, rfl, rfl⟩

/-- C4 (amended): every request a tool issues has the documented method
and path (path parameters substituted); for every tool except
get_token_prices the outbound query parameters are exactly the non-empty
values supplied by the caller; get_token_prices instead sends
`mints = args.mints || "all"`. -/
theorem catalog_request_conformance (inv : Invocation) (r : Request)
    (h : r ∈ requestsOf inv) :
    catalogConforms inv r ∧
    ((∀ m, inv ≠ .getTokenPrices m) →
      sentParams r.query = sentParams (suppliedPairs inv)) ∧
    (∀ m, inv = .getTokenPrices m →
      sentParams r.query = [("mints", jsOrStr m "all")]) := by
  cases inv with
  | getBotInfo =>
      simp only [requestsOf, List.mem_singleton] at h; subst h
      exact ⟨⟨rfl, rfl⟩, fun _ => rfl, fun m hm => by cases hm⟩
  | sendMessage a =>
      simp only [requestsOf, List.mem_singleton] at h; subst h
      exact ⟨⟨rfl, rfl⟩, fun _ => rfl, fun m hm => by cases hm⟩
  | editMessage a =>
      simp only [requestsOf, List.mem_singleton] at h; subst h
      exact ⟨⟨rfl, rfl⟩, fun _ => rfl, fun m hm => by cases hm⟩
  | deleteMessage m =>
      simp only [requestsOf, List.mem_singleton] at h; subst h
      exact ⟨⟨rfl, rfl⟩, fun _ => rfl, fun m hm => by cases hm⟩
  | listConversations a =>
      simp only [requestsOf, List.mem_singleton] at h; subst h
      exact ⟨⟨rfl, rfl⟩, fun _ => rfl, fun m hm => by cases hm⟩
  | getConversationMessages a =>
      simp only [requestsOf, List.mem_singleton] at h; subst h
      refine ⟨⟨rfl, rfl⟩, fun _ => ?_, fun m hm => by cases hm⟩
      obtain ⟨cid, lim, bef⟩ := a
      rcases bef with _ | s
      · rfl
      · by_cases hs : s = "" <;>
          simp [getConversationMessagesRequest, suppliedPairs, sentParams,
            strQuery, hs, List.filter_cons]
  | getUser u =>
      simp only [requestsOf, List.mem_singleton] at h; subst h
      exact ⟨⟨rfl, rfl⟩, fun _ => rfl, fun m hm => by cases hm⟩
  | setWebhook a botInfo =>
      simp only [requestsOf, List.mem_cons] at h
      rcases h with rfl | h2
      · exact ⟨Or.inl ⟨rfl, rfl⟩, fun _ => rfl, fun m hm => by cases hm⟩
      · rcases hout : setWebhookOutcome a botInfo with _ | out <;> rw [hout] at h2
        · simp at h2
        · rcases out with e | pr
          · simp at h2
          · simp only [List.mem_singleton] at h2; subst h2
            obtain ⟨idv, hj, ht, rfl⟩ := setWebhookOutcome_put_shape a botInfo _ hout
            exact ⟨Or.inr ⟨rfl, idv.display, rfl⟩, fun _ => rfl, fun m hm => by cases hm⟩
  | setWelcomeMessage a botInfo =>
      simp only [requestsOf, List.mem_cons] at h
      rcases h with rfl | h2
      · exact ⟨Or.inl ⟨rfl, rfl⟩, fun _ => rfl, fun m hm => by cases hm⟩
      · rcases hout : setWelcomeMessageOutcome a botInfo with _ | out <;> rw [hout] at h2
        · simp at h2
        · rcases out with e | pr
          · simp at h2
          · simp only [List.mem_singleton] at h2; subst h2
            obtain ⟨idv, hj, ht, rfl⟩ :=
              setWelcomeMessageOutcome_put_shape a botInfo _ hout
            exact ⟨Or.inr ⟨rfl, idv.display, rfl⟩, fun _ => rfl, fun m hm => by cases hm⟩
  | getWalletBalance addr =>
      simp only [requestsOf, List.mem_singleton] at h; subst h
      exact ⟨⟨rfl, rfl⟩, fun _ => rfl, fun m hm => by cases hm⟩
  | getTokenList =>
      simp only [requestsOf, List.mem_singleton] at h; subst h
      exact ⟨⟨rfl, rfl⟩, fun _ => rfl, fun m hm => by cases hm⟩
  | getTokenPrices m =>
      simp only [requestsOf, List.mem_singleton] at h; subst h
      refine ⟨⟨rfl, rfl⟩, fun hne => absurd rfl (hne m), fun m' hm' => ?_⟩
      injection hm' with hm2
      subst hm2
      rcases m with _ | s
      · rfl
      · by_cases hs : s = ""
        · subst hs; rfl
        · simp [getTokenPricesRequest, jsOrStr, sentParams, hs]
  | getTransactionHistory a =>
      simp only [requestsOf, List.mem_singleton] at h; subst h
      refine ⟨⟨rfl, rfl⟩, fun _ => ?_, fun m hm => by cases hm⟩
      obtain ⟨addr, lim, bef⟩ := a
      rcases bef with _ | s
      · rfl
      · by_cases hs : s = "" <;>
          simp [getTransactionHistoryRequest, suppliedPairs, sentParams,
            strQuery, hs, List.filter_cons]
  | getTransactionStatus s =>
      simp only [requestsOf, List.mem_singleton] at h; subst h
      exact ⟨⟨rfl, rfl⟩, fun _ => rfl, fun m hm => by cases hm⟩
  | getLatestBlockhash =>
      simp only [requestsOf, List.mem_singleton] at h; subst h
      exact ⟨⟨rfl, rfl⟩, fun _ => rfl, fun m hm => by cases hm⟩
  | sendTransaction t =>
      simp only [requestsOf, List.mem_singleton] at h; subst h
      exact ⟨⟨rfl, rfl⟩, fun _ => rfl, fun m hm => by cases hm⟩
  | simulateTransaction t =>
      simp only [requestsOf, List.mem_singleton] at h; subst h
      exact ⟨⟨rfl, rfl⟩, fun _ => rfl, fun m hm => by cases hm⟩

/-- Witness for C4 (amended) at a concrete invocation. -/
theorem catalog_request_witness :
    catalogConforms (.getWalletBalance "7xK") (getWalletBalanceRequest "7xK") ∧
    sentParams (getWalletBalanceRequest "7xK").query =
      sentParams (suppliedPairs (.getWalletBalance "7xK")) := by
  have h := catalog_request_conformance (.getWalletBalance "7xK")
    (getWalletBalanceRequest "7xK") (by simp [requestsOf])
  exact ⟨h.1, h.2.1 (fun m hm => by cases hm)⟩

/-- C4 counterexample: get_token_prices with `mints` omitted sends the
query parameter `mints=all` even though the caller supplied no values at
all, so the outbound query is not "exactly the non-empty supplied
values". -/
theorem token_prices_unsupplied_param_sent :
    requestsOf (.getTokenPrices none) = [getTokenPricesRequest none] ∧
    sentParams (getTokenPricesRequest none).query = [("mints", "all")] ∧
    sentParams (suppliedPairs (.getTokenPrices none)) = [] :=
  ⟨rfl, rfl, rfl⟩

/-! ## Parser correctness: whitespace and character lemmas -/

/-- Dropping a non-whitespace head is the identity for `skipWs`. -/
theorem skipWs_cons_of_not (c : Char) (l : List Char) (h : isWsC c = false) :
    skipWs (c :: l) = c :: l := by
  simp [skipWs, h]

/-- Dropping an all-whitespace prefix commutes into `skipWs`. -/
theorem skipWs_append_ws (w l : List Char) (hw : ∀ c ∈ w, isWsC c = true) :
    skipWs (w ++ l) = skipWs l := by
  induction w with
  | nil => rfl
  | cons c cs ih =>
      have hc := hw c (by simp)
      simp only [List.cons_append, skipWs, hc, if_pos]
      exact ih fun c hc => hw c (by simp [hc])

/-- Indentation consists of whitespace. -/
theorem indent_ws (d : Nat) : ∀ c ∈ indentChars d, isWsC c = true := by
  intro c hc
  rw [indentChars, List.mem_replicate] at hc
  rw [hc.2]; rfl

/-- Every value needs at least one unit of fuel. -/
theorem sizeJ_pos (v : Json) : 1 ≤ sizeJ v := by
  cases v <;> simp [sizeJ]

/-- Item lists need at least one unit of fuel. -/
theorem sizeI_pos (l : List Json) : 1 ≤ sizeI l := by
  cases l <;> simp [sizeI]

/-- Member lists need at least one unit of fuel. -/
theorem sizeM_pos (l : List (String × Json)) : 1 ≤ sizeM l := by
  cases l <;> simp [sizeM]

/-- A digit character differs from any non-digit character. -/
theorem digit_ne (c ch : Char) (h : c.isDigit = true) (hch : ch.isDigit = false) :
    c ≠ ch := by
  intro e; rw [e, hch] at h; cases h

/-- A character distinct from all four whitespace characters is not
whitespace. -/
theorem not_ws_of_ne (c : Char) (h1 : c ≠ ' ') (h2 : c ≠ '\n') (h3 : c ≠ '\t')
    (h4 : c ≠ '\r') : isWsC c = false := by
  simp [isWsC, h1, h2, h3, h4]

/-- Digits are not whitespace. -/
theorem digit_not_ws (c : Char) (h : c.isDigit = true) : isWsC c = false :=
  not_ws_of_ne c (digit_ne c ' ' h (by decide)) (digit_ne c '\n' h (by decide))
    (digit_ne c '\t' h (by decide)) (digit_ne c '\r' h (by decide))

/-! ## Parser correctness: decimal digits -/

/-- The digit characters of `natCharsAux` are digits with the expected
value range. -/
theorem digitChar_spec (n : Nat) (h : n < 10) :
    (digitChar n).isDigit = true ∧ (digitChar n).toNat = 48 + n := by
  interval_cases n <;> exact ⟨rfl, rfl⟩

/-- All characters produced by `natCharsAux` are digits. -/
theorem natCharsAux_digits (fuel : Nat) :
    ∀ n, n < fuel → ∀ c ∈ natCharsAux fuel n, c.isDigit = true := by
  induction fuel with
  | zero => intro n hn; omega
  | succ f ih =>
      intro n hn c hc
      by_cases h10 : n < 10
      · simp only [natCharsAux, if_pos h10, List.mem_singleton] at hc
        rw [hc]; exact (digitChar_spec n h10).1
      · simp only [natCharsAux, if_neg h10, List.mem_append,
          List.mem_singleton] at hc
        rcases hc with hc | hc
        · exact ih (n / 10) (by omega) c hc
        · rw [hc]; exact (digitChar_spec (n % 10) (by omega)).1

/-- With positive fuel, `natCharsAux` is nonempty and starts with a
digit. -/
theorem natCharsAux_cons (fuel : Nat) :
    ∀ n, n < fuel → ∃ c t, natCharsAux fuel n = c :: t ∧ c.isDigit = true := by
  induction fuel with
  | zero => intro n hn; omega
  | succ f ih =>
      intro n hn
      by_cases h10 : n < 10
      · exact ⟨digitChar n, [], by simp [natCharsAux, h10],
          (digitChar_spec n h10).1⟩
      · obtain ⟨c, t, hct, hc⟩ := ih (n / 10) (by omega)
        exact ⟨c, t ++ [digitChar (n % 10)], by simp [natCharsAux, h10, hct], hc⟩

/-- The reader `readDigits` consumes exactly a run of digits followed by a non-digit
(or nothing), folding the digits onto the accumulator. -/
theorem readDigits_append (ds rest : List Char) (acc : Nat)
    (hds : ∀ c ∈ ds, c.isDigit = true)
    (hrest : rest = [] ∨ ∃ c t, rest = c :: t ∧ c.isDigit = false) :
    readDigits acc (ds ++ rest) =
      (ds.foldl (fun a c => a * 10 + (c.toNat - 48)) acc, rest) := by
  induction ds generalizing acc with
  | nil =>
      rcases hrest with rfl | ⟨c, t, rfl, hc⟩
      · rfl
      · simp [readDigits, hc]
  | cons c cs ih =>
      have hc := hds c (by simp)
      simp only [List.cons_append, readDigits, hc, if_pos, List.foldl_cons]
      exact ih _ fun c hc => hds c (by simp [hc])

/-- Folding the digits of `natCharsAux fuel n` onto `acc` recovers
`acc * 10 ^ digits + n`. -/
theorem foldl_natCharsAux (fuel : Nat) :
    ∀ n acc, n < fuel →
      (natCharsAux fuel n).foldl (fun a c => a * 10 + (c.toNat - 48)) acc =
        acc * 10 ^ (natCharsAux fuel n).length + n := by
  induction fuel with
  | zero => intro n acc hn; omega
  | succ f ih =>
      intro n acc hn
      by_cases h10 : n < 10
      · simp only [natCharsAux, if_pos h10, List.foldl_cons, List.foldl_nil,
          List.length_singleton, pow_one, (digitChar_spec n h10).2]
        omega
      · simp only [natCharsAux, if_neg h10, List.foldl_append, List.foldl_cons,
          List.foldl_nil, List.length_append, List.length_singleton]
        rw [ih (n / 10) acc (by omega), (digitChar_spec (n % 10) (by omega)).2,
          pow_succ]
        have := Nat.div_add_mod n 10
        ring_nf
        omega

/-- Reading back the printed digits of a natural number recovers it. -/
theorem readDigits_natChars (n : Nat) (rest : List Char)
    (hrest : rest = [] ∨ ∃ c t, rest = c :: t ∧ c.isDigit = false) :
    readDigits 0 (natChars n ++ rest) = (n, rest) := by
  rw [natChars, readDigits_append _ _ _ (natCharsAux_digits _ _ (by omega)) hrest,
    foldl_natCharsAux _ _ _ (by omega)]
  simp

/-! ## Parser correctness: string escapes -/

/-- Hex digits decode back to their value. -/
theorem hexVal_digitChar (n : Nat) (h : n < 16) : hexVal (digitChar n) = some n := by
  interval_cases n <;> decide

/-- Parsing the escaped body of a string plus the closing quote recovers
the original characters and leaves the rest untouched. -/
theorem parseStrBody_escape (s rest : List Char) :
    parseStrBody (escapeList s ++ '"' :: rest) = some (s, rest) := by
  induction s with
  | nil =>
      show parseStrBody ('"' :: rest) = _
      rw [parseStrBody.eq_def]; simp
  | cons c cs ih =>
      show parseStrBody ((escapeChar c ++ escapeList cs) ++ '"' :: rest) = _
      rw [List.append_assoc]
      by_cases h1 : c = '"'
      · subst h1
        show parseStrBody ('\\' :: '"' :: _) = _
        rw [parseStrBody.eq_def]; simp [escDecode, ih]
      by_cases h2 : c = '\\'
      · subst h2
        show parseStrBody ('\\' :: '\\' :: _) = _
        rw [parseStrBody.eq_def]; simp [escDecode, ih]
      by_cases h3 : c = '\x08'
      · subst h3
        show parseStrBody ('\\' :: 'b' :: _) = _
        rw [parseStrBody.eq_def]; simp [escDecode, ih]
      by_cases h4 : c = '\x09'
      · subst h4
        show parseStrBody ('\\' :: 't' :: _) = _
        rw [parseStrBody.eq_def]; simp [escDecode, ih]
      by_cases h5 : c = '\x0a'
      · subst h5
        show parseStrBody ('\\' :: 'n' :: _) = _
        rw [parseStrBody.eq_def]; simp [escDecode, ih]
      by_cases h6 : c = '\x0c'
      · subst h6
        show parseStrBody ('\\' :: 'f' :: _) = _
        rw [parseStrBody.eq_def]; simp [escDecode, ih]
      by_cases h7 : c = '\x0d'
      · subst h7
        show parseStrBody ('\\' :: 'r' :: _) = _
        rw [parseStrBody.eq_def]; simp [escDecode, ih]
      by_cases h8 : c.toNat < 32
      · have hesc : escapeChar c =
            ['\\', 'u', '0', '0', digitChar (c.toNat / 16), digitChar (c.toNat % 16)] := by
          simp [escapeChar, h1, h2, h3, h4, h5, h6, h7, h8]
        rw [hesc]
        simp only [List.cons_append, List.nil_append]
        rw [parseStrBody.eq_def]
        have hd1 := hexVal_digitChar (c.toNat / 16) (by omega)
        have hd2 := hexVal_digitChar (c.toNat % 16) (by omega)
        simp only [hd1, hd2, show hexVal '0' = some 0 from rfl]
        simp [ih]
        rw [show c.toNat / 16 * 16 + c.toNat % 16 = c.toNat by omega,
          Char.ofNat_toNat]
      · have hesc : escapeChar c = [c] := by
          simp [escapeChar, h1, h2, h3, h4, h5, h6, h7, h8]
        rw [hesc]
        simp only [List.cons_append, List.nil_append]
        rw [parseStrBody.eq_def]
        simp [h1, h2, ih]

/-! ## Parser correctness: branch dispatch -/

/-- Leading whitespace does not affect `parseVal`. -/
theorem parseVal_ws (fuel : Nat) (w l : List Char)
    (hw : ∀ c ∈ w, isWsC c = true) :
    parseVal fuel (w ++ l) = parseVal fuel l := by
  cases fuel with
  | zero => rfl
  | succ f =>
      simp only [parseVal]
      rw [skipWs_append_ws w l hw]

/-- Dispatch on `null`. -/
theorem parseVal_null (f : Nat) (r : List Char) :
    parseVal (f + 1) ('n' :: 'u' :: 'l' :: 'l' :: r) = some (.null, r) := rfl

/-- Dispatch on `true`. -/
theorem parseVal_true (f : Nat) (r : List Char) :
    parseVal (f + 1) ('t' :: 'r' :: 'u' :: 'e' :: r) = some (.bool true, r) := rfl

/-- Dispatch on `false`. -/
theorem parseVal_false (f : Nat) (r : List Char) :
    parseVal (f + 1) ('f' :: 'a' :: 'l' :: 's' :: 'e' :: r) = some (.bool false, r) := rfl

/-- Dispatch on a string literal. -/
theorem parseVal_quote (f : Nat) (l : List Char) :
    parseVal (f + 1) ('"' :: l) =
      (parseStrBody l).map fun p => (.str (String.mk p.1), p.2) := rfl

/-- Dispatch on an array. -/
theorem parseVal_lbracket (f : Nat) (l : List Char) :
    parseVal (f + 1) ('[' :: l) =
      (match skipWs l with
       | [] => none
       | d :: r =>
         if d = ']' then some (.arr [], r)
         else (parseItems f l).map fun p => (.arr p.1, p.2)) := rfl

/-- Dispatch on an object. -/
theorem parseVal_lbrace (f : Nat) (l : List Char) :
    parseVal (f + 1) (lbr :: l) =
      (match skipWs l with
       | [] => none
       | d :: r =>
         if d = rbr then some (.obj [], r)
         else (parseMembers f l).map fun p => (.obj (buildObj p.1), p.2)) := rfl

/-- Dispatch on a negative number. -/
theorem parseVal_minus (f : Nat) (l : List Char) :
    parseVal (f + 1) ('-' :: l) =
      (match l with
       | [] => none
       | d :: _ =>
         if d.isDigit then
           let p := readDigits 0 l
           some (.num (-(p.1 : Int)), p.2)
         else none) := rfl

/-- Dispatch on a digit-headed number. -/
theorem parseVal_digit (f : Nat) (c : Char) (l : List Char) (hc : c.isDigit = true) :
    parseVal (f + 1) (c :: l) =
      (let p := readDigits 0 (c :: l)
       some (.num (p.1 : Int), p.2)) := by
  have hws := digit_not_ws c hc
  have h1 : c ≠ 'n' := digit_ne _ _ hc (by decide)
  have h2 : c ≠ 't' := digit_ne _ _ hc (by decide)
  have h3 : c ≠ 'f' := digit_ne _ _ hc (by decide)
  have h4 : c ≠ '"' := digit_ne _ _ hc (by decide)
  have h5 : c ≠ '[' := digit_ne _ _ hc (by decide)
  have h6 : c ≠ lbr := digit_ne _ _ hc (by decide)
  have h7 : c ≠ '-' := digit_ne _ _ hc (by decide)
  simp only [parseVal]
  rw [skipWs_cons_of_not _ _ hws]
  simp [h1, h2, h3, h4, h5, h6, h7, hc]

/-- A printed value starts with a non-whitespace character that is neither
a closing bracket nor a closing brace. -/
theorem printVal_head (d : Nat) (v : Json) :
    ∃ c t, printVal d v = c :: t ∧ isWsC c = false ∧ c ≠ ']' ∧ c ≠ rbr := by
  cases v with
  | null => exact ⟨'n', _, rfl, by decide, by decide, by decide⟩
  | bool b =>
      cases b
      · exact ⟨'f', _, rfl, by decide, by decide, by decide⟩
      · exact ⟨'t', _, rfl, by decide, by decide, by decide⟩
  | num n =>
      cases n with
      | ofNat m =>
          obtain ⟨c, t, hct, hc⟩ := natCharsAux_cons (m + 1) m (by omega)
          refine ⟨c, t, ?_, digit_not_ws c hc, digit_ne _ _ hc (by decide),
            digit_ne _ _ hc (by decide)⟩
          show intChars (Int.ofNat m) = c :: t
          rw [intChars, natChars, hct]
      | negSucc k => refine ⟨'-', _, rfl, ?_, ?_, ?_⟩ <;> decide
  | str s => refine ⟨'"', _, rfl, ?_, ?_, ?_⟩ <;> decide
  | arr xs =>
      cases xs with
      | nil => exact ⟨'[', _, rfl, by decide, by decide, by decide⟩
      | cons x t => exact ⟨'[', _, rfl, by decide, by decide, by decide⟩
  | obj kvs =>
      cases kvs with
      | nil => exact ⟨lbr, _, rfl, by decide, by decide, by decide⟩
      | cons kv t => exact ⟨lbr, _, rfl, by decide, by decide, by decide⟩

/-! ## Parser correctness: object reassembly -/

/-- Setting a fresh key appends it. -/
theorem jsSet_fresh (kvs : List (String × Json)) (k : String) (v : Json)
    (h : ¬ k ∈ keysOf kvs) : jsSet kvs k v = kvs ++ [(k, v)] := by
  induction kvs with
  | nil => rfl
  | cons kv rest ih =>
      obtain ⟨k', v'⟩ := kv
      rw [mem_keys_cons] at h
      push_neg at h
      simp only [jsSet, if_neg (fun e : k' = k => h.1 e.symm), List.cons_append,
        List.cons.injEq, true_and]
      exact ih h.2

/-- Folding `jsSet` over members whose keys are distinct and fresh with
respect to the accumulator appends them in order. -/
theorem foldl_jsSet_append (l : List (String × Json)) :
    ∀ acc, (∀ k ∈ keysOf l, ¬ k ∈ keysOf acc) →
      distinctKeys (keysOf l) = true →
      l.foldl (fun a kv => jsSet a kv.1 kv.2) acc = acc ++ l := by
  induction l with
  | nil => intro acc _ _; simp
  | cons kv rest ih =>
      intro acc hdisj hnd
      obtain ⟨k, v⟩ := kv
      simp only [keysOf, List.map_cons, distinctKeys, Bool.and_eq_true,
        Bool.not_eq_true', decide_eq_false_iff_not] at hnd
      simp only [List.foldl_cons]
      rw [jsSet_fresh acc k v (hdisj k (by simp [keysOf]))]
      rw [ih (acc ++ [(k, v)]) ?_ hnd.2]
      · simp
      · intro k2 hk2
        have h1 : ¬ k2 ∈ keysOf acc :=
          hdisj k2 ((mem_keys_cons k2 k v rest).mpr (Or.inr hk2))
        have h2 : k2 ≠ k := fun e => hnd.1 (e ▸ hk2)
        rw [keysOf_append]
        intro hm
        rcases List.mem_append.mp hm with hm1 | hm2
        · exact h1 hm1
        · exact h2 (by simpa [keysOf] using hm2)

/-- Reassembling parsed members with distinct keys is the identity. -/
theorem buildObj_id (kvs : List (String × Json))
    (hnd : distinctKeys (keysOf kvs) = true) : buildObj kvs = kvs := by
  rw [buildObj, foldl_jsSet_append kvs [] (by simp [keysOf]) hnd]
  simp

/-! ## Parser correctness: the printed length bounds the needed fuel -/

mutual
/-- A value's parse fuel is bounded by its printed length plus one. -/
theorem sizeJ_le_print (d : Nat) : (v : Json) → sizeJ v ≤ (printVal d v).length + 1
  | .null => by simp [sizeJ, printVal]
  | .bool b => by cases b <;> simp [sizeJ, printVal]
  | .num n => by simp only [sizeJ]; omega
  | .str s => by simp only [sizeJ]; omega
  | .arr [] => by simp [sizeJ, sizeI, printVal]
  | .arr (x :: xs) => by
      have h1 := sizeJ_le_print (d + 1) x
      have h2 := sizeI_le_print (d + 1) xs
      simp only [sizeJ, sizeI, printVal, List.length_cons, List.length_append,
        indentChars, List.length_replicate]
      omega
  | .obj [] => by simp [sizeJ, sizeM, printVal]
  | .obj (kv :: rest) => by
      have h1 := sizeJ_le_print (d + 1) kv.2
      have h2 := sizeM_le_print (d + 1) rest
      simp only [sizeJ, sizeM, printVal, printKV, List.length_cons,
        List.length_append, indentChars, List.length_replicate]
      omega

/-- Item-list fuel is bounded by the printed items' length plus one. -/
theorem sizeI_le_print (d : Nat) : (l : List Json) → sizeI l ≤ (printItems d l).length + 1
  | [] => by simp [sizeI, printItems]
  | x :: xs => by
      have h1 := sizeJ_le_print d x
      have h2 := sizeI_le_print d xs
      simp only [sizeI, printItems, List.length_cons, List.length_append,
        indentChars, List.length_replicate]
      omega

/-- Member-list fuel is bounded by the printed members' length plus one. -/
theorem sizeM_le_print (d : Nat) :
    (l : List (String × Json)) → sizeM l ≤ (printMembers d l).length + 1
  | [] => by simp [sizeM, printMembers]
  | kv :: rest => by
      have h1 := sizeJ_le_print d kv.2
      have h2 := sizeM_le_print d rest
      simp only [sizeM, printMembers, printKV, List.length_cons,
        List.length_append, indentChars, List.length_replicate]
      omega
end


/-- Whitespace facts for a newline plus indentation. -/
theorem ws_nl_indent (d : Nat) : ∀ c ∈ '\n' :: indentChars d, isWsC c = true := by
  intro c hc
  rcases List.mem_cons.mp hc with rfl | hc
  · rfl
  · exact indent_ws d c hc

/-- An `OkRest` continuation never starts with a digit. -/
theorem okRest_digit_free (rest : List Char) (h : OkRest rest) :
    rest = [] ∨ ∃ c t, rest = c :: t ∧ c.isDigit = false := by
  rcases h with rfl | ⟨t, rfl⟩ | ⟨t, rfl⟩
  · exact Or.inl rfl
  · exact Or.inr ⟨',', t, rfl, by decide⟩
  · exact Or.inr ⟨'\n', t, rfl, by decide⟩

/-- Round trip for one value at positive fuel, on the literal cases. -/
theorem parse_print_num (f : Nat) (n : Int) (d : Nat) (rest : List Char)
    (hrest : OkRest rest) :
    parseVal (f + 1) (printVal d (.num n) ++ rest) = some (.num n, rest) := by
  cases n with
  | ofNat m =>
      obtain ⟨c, t, hct, hc⟩ := natCharsAux_cons (m + 1) m (by omega)
      have hrd : readDigits 0 (natChars m ++ rest) = (m, rest) :=
        readDigits_natChars m rest (okRest_digit_free rest hrest)
      show parseVal (f + 1) (intChars (Int.ofNat m) ++ rest) = _
      rw [show intChars (Int.ofNat m) = natChars m from rfl, natChars, hct,
        List.cons_append, parseVal_digit f c (t ++ rest) hc]
      rw [show c :: (t ++ rest) = (c :: t) ++ rest from rfl, ← hct, ← natChars, hrd]
      rfl
  | negSucc k =>
      obtain ⟨c, t, hct, hc⟩ := natCharsAux_cons (k + 2) (k + 1) (by omega)
      have hrd : readDigits 0 (natChars (k + 1) ++ rest) = (k + 1, rest) :=
        readDigits_natChars (k + 1) rest (okRest_digit_free rest hrest)
      show parseVal (f + 1) (intChars (Int.negSucc k) ++ rest) = _
      rw [show intChars (Int.negSucc k) ++ rest = '-' :: (natChars (k + 1) ++ rest)
        from by simp [intChars], parseVal_minus, natChars, hct, List.cons_append]
      simp only [hc, if_pos]
      rw [show c :: (t ++ rest) = (c :: t) ++ rest from rfl, ← hct, ← natChars, hrd]
      simp [Int.negSucc_eq]


/-- Round trip for a printed string literal. -/
theorem parse_print_str (f : Nat) (s : String) (d : Nat) (rest : List Char) :
    parseVal (f + 1) (printVal d (.str s) ++ rest) = some (.str s, rest) := by
  show parseVal (f + 1) (('"' :: (escapeList s.data ++ ['"'])) ++ rest) = _
  rw [List.cons_append, List.append_assoc, parseVal_quote,
    show ['"'] ++ rest = '"' :: rest from rfl, parseStrBody_escape s.data rest]
  rfl


theorem parses_items_step (f : Nat) (ihV : ParsesVal f) (ihI : ParsesItems f) :
    ParsesItems (f + 1) := by
  intro x xs d rest pre hpre hsz hwf
  have hwx : x.wfB = true ∧ wfList xs = true := by
    simpa [wfList, Bool.and_eq_true] using hwf
  have hsx : sizeJ x ≤ f := by
    simp only [sizeI] at hsz
    have := sizeI_pos xs
    omega
  simp only [parseItems]
  rw [parseVal_ws f pre _ hpre]
  cases xs with
  | nil =>
      simp only [printItems, List.nil_append]
      rw [ihV x (d + 1) ('\n' :: (indentChars d ++ (']' :: rest))) hsx hwx.1
        (Or.inr (Or.inr ⟨_, rfl⟩))]
      have hskip : skipWs ('\n' :: (indentChars d ++ (']' :: rest))) = ']' :: rest := by
        rw [show '\n' :: (indentChars d ++ (']' :: rest))
            = ('\n' :: indentChars d) ++ (']' :: rest) from rfl,
          skipWs_append_ws _ _ (ws_nl_indent d),
          skipWs_cons_of_not _ _ (by decide)]
      simp [hskip]
  | cons y ys =>
      have hsy : sizeI (y :: ys) ≤ f := by
        simp only [sizeI] at hsz ⊢
        have := sizeJ_pos x
        omega
      rw [show printItems (d + 1) (y :: ys)
          ++ '\n' :: (indentChars d ++ (']' :: rest))
          = ',' :: ('\n' :: (indentChars (d + 1) ++ (printVal (d + 1) y
            ++ (printItems (d + 1) ys
              ++ '\n' :: (indentChars d ++ (']' :: rest)))))) by
        simp [printItems, List.append_assoc]]
      rw [ihV x (d + 1) _ hsx hwx.1 (Or.inr (Or.inl ⟨_, rfl⟩))]
      have hnext := ihI y ys d rest ('\n' :: indentChars (d + 1))
        (ws_nl_indent (d + 1)) hsy hwx.2
      simp only [List.cons_append] at hnext
      have hskip : skipWs (',' :: ('\n' :: (indentChars (d + 1) ++ (printVal (d + 1) y
          ++ (printItems (d + 1) ys ++ '\n' :: (indentChars d ++ (']' :: rest)))))))
          = ',' :: ('\n' :: (indentChars (d + 1) ++ (printVal (d + 1) y
            ++ (printItems (d + 1) ys ++ '\n' :: (indentChars d ++ (']' :: rest))))))
          := skipWs_cons_of_not _ _ (by decide)
      simp [hskip, hnext]


theorem parses_members_step (f : Nat) (ihV : ParsesVal f) (ihM : ParsesMembers f) :
    ParsesMembers (f + 1) := by
  intro kv kvs d rest pre hpre hsz hwf
  obtain ⟨k, v⟩ := kv
  have hwkv : v.wfB = true ∧ wfKVs kvs = true := by
    simpa [wfKVs, Bool.and_eq_true] using hwf
  have hsv : sizeJ v ≤ f := by
    simp only [sizeM] at hsz
    have := sizeM_pos kvs
    omega
  simp only [parseMembers]
  rw [show pre ++ (printKV (d + 1) (k, v) ++ (printMembers (d + 1) kvs
      ++ '\n' :: (indentChars d ++ (rbr :: rest))))
      = pre ++ ('"' :: (escapeList k.data ++ '"' :: (':' :: (' ' :: (printVal (d + 1) v
        ++ (printMembers (d + 1) kvs ++ '\n' :: (indentChars d ++ (rbr :: rest))))))))
      by simp [printKV, List.append_assoc]]
  rw [skipWs_append_ws _ _ hpre, skipWs_cons_of_not _ _ (by decide)]
  have hk : String.mk k.data = k := rfl
  cases kvs with
  | nil =>
      have hokr : OkRest ('\n' :: (indentChars d ++ (rbr :: rest))) :=
        Or.inr (Or.inr ⟨_, rfl⟩)
      have hVal : parseVal f (' ' :: (printVal (d + 1) v
          ++ ('\n' :: (indentChars d ++ (rbr :: rest)))))
          = some (v, '\n' :: (indentChars d ++ (rbr :: rest))) := by
        have hws : parseVal f (' ' :: (printVal (d + 1) v
            ++ ('\n' :: (indentChars d ++ (rbr :: rest)))))
            = parseVal f (printVal (d + 1) v
              ++ ('\n' :: (indentChars d ++ (rbr :: rest)))) :=
          parseVal_ws f [' '] _ (by decide)
        rw [hws, ihV v (d + 1) _ hsv hwkv.1 hokr]
      have hskip2 : skipWs (':' :: (' ' :: (printVal (d + 1) v
          ++ ('\n' :: (indentChars d ++ (rbr :: rest))))))
          = ':' :: (' ' :: (printVal (d + 1) v
            ++ ('\n' :: (indentChars d ++ (rbr :: rest))))) :=
        skipWs_cons_of_not _ _ (by decide)
      have hskip3 : skipWs ('\n' :: (indentChars d ++ (rbr :: rest))) = rbr :: rest := by
        rw [show '\n' :: (indentChars d ++ (rbr :: rest))
            = ('\n' :: indentChars d) ++ (rbr :: rest) from rfl,
          skipWs_append_ws _ _ (ws_nl_indent d),
          skipWs_cons_of_not _ _ (by decide)]
      simp [printMembers, parseStrBody_escape, hskip2, hskip3, hVal, hk,
        show (rbr = ',') = False by simp [rbr],
        show (rbr = rbr) = True by simp]
  | cons kv2 kvs2 =>
      have hsm : sizeM (kv2 :: kvs2) ≤ f := by
        simp only [sizeM] at hsz ⊢
        have := sizeJ_pos v
        omega
      have hitems : printMembers (d + 1) (kv2 :: kvs2)
          ++ '\n' :: (indentChars d ++ (rbr :: rest))
          = ',' :: ('\n' :: (indentChars (d + 1) ++ (printKV (d + 1) kv2
            ++ (printMembers (d + 1) kvs2
              ++ '\n' :: (indentChars d ++ (rbr :: rest)))))) := by
        simp [printMembers, List.append_assoc]
      have hokr : OkRest (printMembers (d + 1) (kv2 :: kvs2)
          ++ '\n' :: (indentChars d ++ (rbr :: rest))) := by
        rw [hitems]; exact Or.inr (Or.inl ⟨_, rfl⟩)
      have hVal : parseVal f (' ' :: (printVal (d + 1) v
          ++ (printMembers (d + 1) (kv2 :: kvs2)
            ++ '\n' :: (indentChars d ++ (rbr :: rest)))))
          = some (v, printMembers (d + 1) (kv2 :: kvs2)
              ++ '\n' :: (indentChars d ++ (rbr :: rest))) := by
        have hws : parseVal f (' ' :: (printVal (d + 1) v
            ++ (printMembers (d + 1) (kv2 :: kvs2)
              ++ '\n' :: (indentChars d ++ (rbr :: rest)))))
            = parseVal f (printVal (d + 1) v
              ++ (printMembers (d + 1) (kv2 :: kvs2)
                ++ '\n' :: (indentChars d ++ (rbr :: rest)))) :=
          parseVal_ws f [' '] _ (by decide)
        rw [hws, ihV v (d + 1) _ hsv hwkv.1 hokr]
      have hskip2 : skipWs (':' :: (' ' :: (printVal (d + 1) v
          ++ (printMembers (d + 1) (kv2 :: kvs2)
            ++ '\n' :: (indentChars d ++ (rbr :: rest))))))
          = ':' :: (' ' :: (printVal (d + 1) v
            ++ (printMembers (d + 1) (kv2 :: kvs2)
              ++ '\n' :: (indentChars d ++ (rbr :: rest))))) :=
        skipWs_cons_of_not _ _ (by decide)
      have hnext := ihM kv2 kvs2 d rest ('\n' :: indentChars (d + 1))
        (ws_nl_indent (d + 1)) hsm hwkv.2
      simp only [List.cons_append] at hnext
      have hskip3 : skipWs (',' :: ('\n' :: (indentChars (d + 1) ++ (printKV (d + 1) kv2
          ++ (printMembers (d + 1) kvs2 ++ '\n' :: (indentChars d ++ (rbr :: rest)))))))
          = ',' :: ('\n' :: (indentChars (d + 1) ++ (printKV (d + 1) kv2
            ++ (printMembers (d + 1) kvs2 ++ '\n' :: (indentChars d ++ (rbr :: rest))))))
          := skipWs_cons_of_not _ _ (by decide)
      rw [hitems] at hVal hskip2
      simp [parseStrBody_escape, hitems, hVal, hskip2, hskip3, hnext, hk]


theorem parses_val_step (f : Nat) (ihI : ParsesItems f) (ihM : ParsesMembers f) :
    ParsesVal (f + 1) := by
  intro v d rest hsz hwf hrest
  cases v with
  | null => exact parseVal_null f rest
  | bool b =>
      cases b with
      | false => exact parseVal_false f rest
      | true => exact parseVal_true f rest
  | num n => exact parse_print_num f n d rest hrest
  | str s => exact parse_print_str f s d rest
  | arr xs =>
      cases xs with
      | nil => rfl
      | cons x xs2 =>
          have hwl : wfList (x :: xs2) = true := by
            simpa [Json.wfB] using hwf
          have hszi : sizeI (x :: xs2) ≤ f := by
            simp only [sizeJ] at hsz; omega
          show parseVal (f + 1)
            (('[' :: '\n' :: indentChars (d + 1) ++ printVal (d + 1) x
              ++ printItems (d + 1) xs2 ++ '\n' :: indentChars d ++ [']'])
              ++ rest) = _
          rw [show ('[' :: '\n' :: indentChars (d + 1) ++ printVal (d + 1) x
              ++ printItems (d + 1) xs2 ++ '\n' :: indentChars d ++ [']'])
              ++ rest
              = '[' :: ('\n' :: (indentChars (d + 1) ++ (printVal (d + 1) x
                ++ (printItems (d + 1) xs2
                  ++ '\n' :: (indentChars d ++ (']' :: rest)))))) by
            simp [List.append_assoc]]
          rw [parseVal_lbracket]
          obtain ⟨c0, t0, hct0, hws0, hne0, _⟩ := printVal_head (d + 1) x
          have hskipL : skipWs ('\n' :: (indentChars (d + 1) ++ (printVal (d + 1) x
              ++ (printItems (d + 1) xs2
                ++ '\n' :: (indentChars d ++ (']' :: rest))))))
              = c0 :: (t0 ++ (printItems (d + 1) xs2
                ++ '\n' :: (indentChars d ++ (']' :: rest)))) := by
            rw [show '\n' :: (indentChars (d + 1) ++ (printVal (d + 1) x
                ++ (printItems (d + 1) xs2
                  ++ '\n' :: (indentChars d ++ (']' :: rest)))))
                = ('\n' :: indentChars (d + 1)) ++ (printVal (d + 1) x
                  ++ (printItems (d + 1) xs2
                    ++ '\n' :: (indentChars d ++ (']' :: rest)))) from rfl,
              skipWs_append_ws _ _ (ws_nl_indent (d + 1)), hct0, List.cons_append,
              skipWs_cons_of_not _ _ hws0]
          have hitems := ihI x xs2 d rest ('\n' :: indentChars (d + 1))
            (ws_nl_indent (d + 1)) hszi hwl
          simp only [List.cons_append] at hitems
          simp [hskipL, hne0, hitems]
  | obj kvs =>
      cases kvs with
      | nil => rfl
      | cons kv kvs2 =>
          have hwfs : distinctKeys (keysOf (kv :: kvs2)) = true ∧
              wfKVs (kv :: kvs2) = true := by
            simpa [Json.wfB, Bool.and_eq_true] using hwf
          have hszm : sizeM (kv :: kvs2) ≤ f := by
            simp only [sizeJ] at hsz; omega
          show parseVal (f + 1)
            ((lbr :: '\n' :: indentChars (d + 1) ++ printKV (d + 1) kv
              ++ printMembers (d + 1) kvs2 ++ '\n' :: indentChars d ++ [rbr])
              ++ rest) = _
          rw [show (lbr :: '\n' :: indentChars (d + 1) ++ printKV (d + 1) kv
              ++ printMembers (d + 1) kvs2 ++ '\n' :: indentChars d ++ [rbr])
              ++ rest
              = lbr :: ('\n' :: (indentChars (d + 1) ++ (printKV (d + 1) kv
                ++ (printMembers (d + 1) kvs2
                  ++ '\n' :: (indentChars d ++ (rbr :: rest)))))) by
            simp [List.append_assoc]]
          rw [parseVal_lbrace]
          have hskipL : skipWs ('\n' :: (indentChars (d + 1) ++ (printKV (d + 1) kv
              ++ (printMembers (d + 1) kvs2
                ++ '\n' :: (indentChars d ++ (rbr :: rest))))))
              = '"' :: (escapeList kv.1.data
                ++ ('"' :: ':' :: ' ' :: printVal (d + 1) kv.2
                  ++ (printMembers (d + 1) kvs2
                    ++ '\n' :: (indentChars d ++ (rbr :: rest))))) := by
            rw [show '\n' :: (indentChars (d + 1) ++ (printKV (d + 1) kv
                ++ (printMembers (d + 1) kvs2
                  ++ '\n' :: (indentChars d ++ (rbr :: rest)))))
                = ('\n' :: indentChars (d + 1)) ++ (printKV (d + 1) kv
                  ++ (printMembers (d + 1) kvs2
                    ++ '\n' :: (indentChars d ++ (rbr :: rest)))) from rfl,
              skipWs_append_ws _ _ (ws_nl_indent (d + 1))]
            rw [show printKV (d + 1) kv ++ (printMembers (d + 1) kvs2
                ++ '\n' :: (indentChars d ++ (rbr :: rest)))
                = '"' :: (escapeList kv.1.data
                  ++ ('"' :: ':' :: ' ' :: printVal (d + 1) kv.2
                    ++ (printMembers (d + 1) kvs2
                      ++ '\n' :: (indentChars d ++ (rbr :: rest))))) by
              simp [printKV, List.append_assoc]]
            exact skipWs_cons_of_not _ _ (by decide)
          have hmembers := ihM kv kvs2 d rest ('\n' :: indentChars (d + 1))
            (ws_nl_indent (d + 1)) hszm hwfs.2
          simp only [List.cons_append] at hmembers
          simp [hskipL, hmembers, buildObj_id _ hwfs.1,
            show ('"' : Char) ≠ rbr by decide]


/-- The central round-trip fact, by induction on fuel: parsing inverts
printing for well-formed values at every sufficient fuel. -/
theorem parse_print_round (fuel : Nat) :
    ParsesVal fuel ∧ ParsesItems fuel ∧ ParsesMembers fuel := by
  induction fuel with
  | zero =>
      refine ⟨fun v d rest hsz _ _ => absurd hsz ?_,
        fun x xs d rest pre _ hsz _ => absurd hsz ?_,
        fun kv kvs d rest pre _ hsz _ => absurd hsz ?_⟩
      · have := sizeJ_pos v; omega
      · have := sizeI_pos (x :: xs); omega
      · have := sizeM_pos (kv :: kvs); omega
  | succ f ih =>
      obtain ⟨ihV, ihI, ihM⟩ := ih
      exact ⟨parses_val_step f ihI ihM, parses_items_step f ihV ihI,
        parses_members_step f ihV ihM⟩

/-- C6: wrapping a well-formed JSON value with the envelope builder and
JSON-parsing the text of the envelope's sole content block yields the
value again, and the envelope always holds exactly one content block of
type `"text"`. -/
theorem envelope_roundtrip (v : Json) (hwf : v.wfB = true) :
    ∃ t, (ok v).content = [{ type := "text", text := t }] ∧
      parseJson t = some v := by
  refine ⟨stringify2 v, rfl, ?_⟩
  have hlen : sizeJ v ≤ (stringify2 v).length + 1 := by
    have := sizeJ_le_print 0 v
    simpa [stringify2] using this
  have h := (parse_print_round ((stringify2 v).length + 1)).1 v 0 [] hlen hwf
    (Or.inl rfl)
  rw [List.append_nil] at h
  unfold parseJson
  rw [show (stringify2 v).data = printVal 0 v from rfl, h]
  simp [skipWs]

/-- Witness for C6 on a concrete nested value. -/
theorem envelope_roundtrip_witness :
    ∃ t, (ok (Json.obj [("a", Json.num 1),
        ("b", Json.arr [Json.str "x", Json.bool true])])).content
        = [{ type := "text", text := t }] ∧
      parseJson t = some (Json.obj [("a", Json.num 1),
        ("b", Json.arr [Json.str "x", Json.bool true])]) :=
  envelope_roundtrip _ rfl

/-- C5: the gateway returns the parsed JSON body whenever the body parses
(whatever the HTTP status), and the `{status, body}` fallback with the
exact status code and raw text whenever it does not. -/
theorem api_result_passthrough (status : Nat) (text : String) :
    (∀ v, parseJson text = some v → apiResult status text = v) ∧
    (parseJson text = none → apiResult status text =
      Json.obj [("status", Json.num (status : Int)), ("body", Json.str text)]) := by
  constructor
  · intro v h; simp [apiResult, h]
  · intro h; simp [apiResult, h]

/-- Witness for C5: a parseable body (on an error status) passes through;
an unparseable body yields the fallback. -/
theorem api_result_witness :
    apiResult 500 "true" = Json.bool true ∧
    apiResult 404 "not json" =
      Json.obj [("status", Json.num 404), ("body", Json.str "not json")] :=
  ⟨(api_result_passthrough 500 "true").1 (Json.bool true) rfl,
   (api_result_passthrough 404 "not json").2 rfl⟩

end Solafon
